import Mathlib

/-!
Verification of the columnar genotype-store transforms.

This file gives a shallow embedding of the two streaming record-to-table
transforms of the repository:

* `tables_vcf` embeds `tables` of `src/tables/vcf_to_parquet.py` (real
  ingestion mode: a multi-sample VCF stream is decoded into variants,
  annotations and genotype-call rows, buffered, and flushed in chunks).
* `tables_gnomad` embeds `tables` of `src/tables/parquet_from_gnomad.py`
  (synthetic mode: per-sample genotypes are drawn from a population allele
  frequency under Hardy-Weinberg equilibrium).

External collaborators (the VCF decoder, numpy's categorical sampler, the
parquet writer) are modelled at their interface: records arrive as
structured data, randomness is an explicit draw oracle, and a parquet
writer is a created-flag plus the list of rows appended so far.
Fallible operations (list indexing, dict lookup, numpy's probability
validation) return `Except String`.
-/

/-! ## String constants used by the source -/

def germlineStr : String := "germline"

def pipeSym : String := "|"

def slashSym : String := "/"

def emptyStr : String := ""

def errAltIndex : String := "IndexError: list index out of range"

def errSampleIndex : String := "IndexError: sample index out of range"

def errKeyMiss : String := "KeyError: sample name not in sample map"

def errGeneKey : String := "KeyError: geneSymbol"

def errNegProb : String := "ValueError: probabilities are not non-negative"

def errProbSum : String := "ValueError: probabilities do not sum to 1"

/-! ## Row types (the fixed per-table schemas of `get_schemas`) -/

/-- One row of the `variants` table: (vId int64, chrom string, pos int32,
ref string, alt string). -/
structure VariantRow where
  vId : Int
  chrom : String
  pos : Int
  ref : String
  alt : String
deriving DecidableEq

/-- One row of the `annotations` table: (vId int64, geneSymbol string). -/
structure AnnotationRow where
  vId : Int
  geneSymbol : String
deriving DecidableEq

/-- One row of the `gts` table in `vcf_to_parquet.py`
(vId int64, callsetId int32, genotype string). -/
structure GtRowS where
  vId : Int
  callsetId : Nat
  genotype : String
deriving DecidableEq

/-- One row of the `gts` table in `parquet_from_gnomad.py`
(vId uint64, callsetId uint32, genotype uint8). -/
structure GtRowN where
  vId : Int
  callsetId : Nat
  genotype : Nat
deriving DecidableEq

/-- One row of the `callsets` table. -/
structure CallsetRow where
  callsetId : Nat
  sampleId : Nat
  call_type : String
  dataset : String
  consent : Bool
deriving DecidableEq

/-- One row of the `samples` table. -/
structure SampleRow where
  sampleId : Nat
  sample_name : String
  ethnicity : String
  birth_sex : String
  patientId : String
  dataset : String
  consent : Bool
deriving DecidableEq

/-- The three streamed row buffers (`empty_tables` in the source builds the
dictionary-of-lists version of this; rows are appended column-lockstep, so a
list of typed rows is the same data). `γ` is the genotype-call row type,
`GtRowS` for the vcf transform and `GtRowN` for the gnomad transform. -/
structure Tbls (γ : Type) where
  variants : List VariantRow
  annotations : List AnnotationRow
  gts : List γ
deriving DecidableEq

/-- `empty_tables()` from the source. -/
def empty_tables {γ : Type} : Tbls γ := ⟨[], [], []⟩

/-- Concatenate two buffer groups table-by-table. -/
def append3 {γ : Type} (a b : Tbls γ) : Tbls γ :=
  ⟨a.variants ++ b.variants, a.annotations ++ b.annotations, a.gts ++ b.gts⟩

/-- Which parquet writers have been created (the source's `writers` dict:
an entry is `None` until the first flush creates a `ParquetWriter`). -/
structure Writers where
  variants : Bool
  annotations : Bool
  gts : Bool
deriving DecidableEq

def no_writers : Writers := ⟨false, false, false⟩

/-- `update_files(tables, writers, prefix)` from the source: for each of the
three streamed tables, create the writer if missing and append the buffered
batch to that table's single output. Returns the new writer flags and the
rows written so far per table. -/
def update_files {γ : Type} (tables : Tbls γ) (writers : Writers) (out : Tbls γ) :
    Writers × Tbls γ :=
  (⟨true, true, true⟩, append3 out tables)

/-- Pointwise or of the writer flags with a single flag. -/
def orW (w : Writers) (b : Bool) : Writers :=
  ⟨w.variants || b, w.annotations || b, w.gts || b⟩

/-! ## Sample / callset metadata tables -/

/-- `write_callset_table(samples, dataset, prefix, consent)`: one row per
sample, `callsetId = sampleId = i` in sample-list order.  The same function
appears verbatim in both `vcf_to_parquet.py` and `parquet_from_gnomad.py`. -/
def write_callset_table (samples : List String) (dataset : String) (consent : Bool) :
    List CallsetRow :=
  (List.range samples.length).map (fun i => ⟨i, i, germlineStr, dataset, consent⟩)

/-- Helper recursion for `write_sample_table`: builds one `SampleRow` per
sample name, with dense ids from `i` up.  The demographic draws
(`random.choices` for ethnicity and birth sex) are external collaborators and
are passed in as oracles `eth` and `birth`. -/
def write_sample_rows (dataset : String) (eth birth : Nat → String) (consent : Bool) :
    Nat → List String → List SampleRow
  | _, [] => []
  | i, s :: ss =>
    ⟨i, s, eth i, birth i, s, dataset, consent⟩ ::
      write_sample_rows dataset eth birth consent (i + 1) ss

/-- `write_sample_table(samples, dataset, prefix, consent)` from the source
(`patientId` is the sample name, ids are dense in list order). -/
def write_sample_table (samples : List String) (dataset : String)
    (eth birth : Nat → String) (consent : Bool) : List SampleRow :=
  write_sample_rows dataset eth birth consent 0 samples

/-! ## vcf_to_parquet.py: record decoding -/

/-- Helper for `sample_to_sampleId`: the dict comprehension
`{sample: i for i, sample in enumerate(samples)}` maps a name to its index,
with a later duplicate overwriting an earlier one, so lookup returns the
last index carrying the name. -/
def sample_to_sampleId_from : Nat → List String → String → Option Nat
  | _, [], _ => none
  | i, s :: ss, t =>
    match sample_to_sampleId_from (i + 1) ss t with
    | some j => some j
    | none => if s = t then some i else none

/-- `sample_to_sampleId(samples)` from the source, as a lookup function. -/
def sample_to_sampleId (samples : List String) (s : String) : Option Nat :=
  sample_to_sampleId_from 0 samples s

/-- `gt_string(genotype)` from the source: a cyvcf2 genotype is the list of
allele indices plus a trailing phase flag; the allele indices are joined by
`|` when the flag is truthy and `/` otherwise. -/
def gt_string (genotype : List Int × Bool) : String :=
  String.intercalate (if genotype.2 then pipeSym else slashSym)
    (genotype.1.map toString)

/-- Helper for `has_calls`: indices (from `i` up) of the entries with odd
genotype-type code. -/
def has_calls_from : Nat → List Nat → List Nat
  | _, [] => []
  | i, t :: ts =>
    if t % 2 = 1 then i :: has_calls_from (i + 1) ts else has_calls_from (i + 1) ts

/-- `np.where(record.gt_types % 2 == 1)[0]`: positions of the samples whose
genotype-type code is odd (1 = HET, 3 = HOM_ALT; the codes are
0,1,2,3 = HOM_REF, HET, UNKNOWN, HOM_ALT per the source comment). -/
def has_calls (gt_types : List Nat) : List Nat := has_calls_from 0 gt_types

/-- One decoded input record as handed over by the external VCF decoder
(cyvcf2): chromosome, position, reference allele, the alternate alleles,
the `geneSymbol` INFO field (`none` models a record whose INFO lacks the
key entirely — `record.INFO['geneSymbol']` then raises `KeyError`, a fatal
error; `some s` models a present value `s`), the per-sample genotype-type
codes, and the per-sample genotypes (allele indices plus phase flag). -/
structure VcfRecord where
  CHROM : String
  POS : Int
  REF : String
  ALT : List String
  geneSymbol : Option String
  gt_types : List Nat
  genotypes : List (List Int × Bool)
deriving DecidableEq

/-- Python truthiness of a present `geneSymbol` INFO value as used in
`if record.INFO['geneSymbol']`: the empty string is falsy, any other
string is truthy.  (An absent key never reaches this test: the lookup
itself raises `KeyError`.) -/
def geneSymbol_truthy (s : String) : Bool := decide (¬ s = emptyStr)

/-- The genotype-call rows of one record: for each index in `has_calls`,
look up `sample_map[samples[idx]]` and build the row
`(vid, sid, gt_string(record.genotypes[idx]))`.  Out-of-range indexing and
a dict miss are fatal, as in Python. -/
def vcfGtRows (samples : List String) (vid : Nat) (geno : List (List Int × Bool)) :
    List Nat → Except String (List GtRowS)
  | [] => .ok []
  | idx :: idxs =>
    match samples.get? idx with
    | none => .error errSampleIndex
    | some sname =>
      match sample_to_sampleId samples sname with
      | none => .error errKeyMiss
      | some sid =>
        match geno.get? idx with
        | none => .error errSampleIndex
        | some g =>
          match vcfGtRows samples vid geno idxs with
          | .error e => .error e
          | .ok rest => .ok (⟨(vid : Int), sid, gt_string g⟩ :: rest)

/-- The rows one input record contributes in `vcf_to_parquet.py`'s loop
body: one variant row `(vid, chrom, pos, ref, str(alt[0]))`, then the
`record.INFO['geneSymbol']` lookup — which is fatal (`KeyError`) when the
record's INFO lacks the key, and emits one annotation row when the present
value is truthy — then one genotype-call row per present sample, in that
evaluation order. -/
def vcfRecordRows (samples : List String) (vid : Nat) (r : VcfRecord) :
    Except String (Tbls GtRowS) :=
  match r.ALT.head? with
  | none => .error errAltIndex
  | some alt =>
    match r.geneSymbol with
    | none => .error errGeneKey
    | some gsym =>
      match vcfGtRows samples vid r.genotypes (has_calls r.gt_types) with
      | .error e => .error e
      | .ok grows =>
        .ok ⟨[⟨(vid : Int), r.CHROM, r.POS, r.REF, alt⟩],
          (if geneSymbol_truthy gsym then [⟨(vid : Int), gsym⟩] else []),
          grows⟩

/-- The mutable state of `tables` in `vcf_to_parquet.py`: the in-memory row
buffers, the writer flags, and the rows already flushed per table. -/
structure VcfState where
  data_tables : Tbls GtRowS
  writers : Writers
  out : Tbls GtRowS
deriving DecidableEq

/-- One iteration of the `for vid, record in enumerate(vcf_reader)` loop:
append the record's rows to the buffers, then flush and reset the buffers
when `(vid+1) % chunksize == 0`. -/
def vcfStep (samples : List String) (chunksize : Nat) (vid : Nat) (r : VcfRecord)
    (st : VcfState) : Except String VcfState :=
  match vcfRecordRows samples vid r with
  | .error e => .error e
  | .ok rows =>
    let dt := append3 st.data_tables rows
    if (vid + 1) % chunksize = 0 then
      .ok ⟨empty_tables, (update_files dt st.writers st.out).1,
        (update_files dt st.writers st.out).2⟩
    else
      .ok ⟨dt, st.writers, st.out⟩

/-- The record loop of `tables` in `vcf_to_parquet.py`. -/
def vcfLoop (samples : List String) (chunksize : Nat) :
    Nat → List VcfRecord → VcfState → Except String VcfState
  | _, [], st => .ok st
  | vid, r :: rs, st =>
    match vcfStep samples chunksize vid r st with
    | .error e => .error e
    | .ok st2 => vcfLoop samples chunksize (vid + 1) rs st2

/-- The trailing `if len(data_tables["variants"]["vId"]): update_files(...)`
of `tables`: flush whatever is still buffered, if anything is. -/
def vcf_final (st : VcfState) : VcfState :=
  if st.data_tables.variants.length ≠ 0 then
    ⟨empty_tables, (update_files st.data_tables st.writers st.out).1,
      (update_files st.data_tables st.writers st.out).2⟩
  else st

/-- A table's persisted artifact: `none` when no writer was ever created
(no parquet file exists), otherwise the rows appended across all flushes. -/
def artifactOf {α : Type} (created : Bool) (rows : List α) : Option (List α) :=
  if created then some rows else none

/-- The artifacts a whole run of `vcf_to_parquet.py` leaves behind:
the eagerly written callsets and samples tables, and the lazily created
variants / annotations / gts parquet outputs. -/
structure VcfRun where
  callsetsOut : List CallsetRow
  samplesOut : List SampleRow
  variantsOut : Option (List VariantRow)
  annotationsOut : Option (List AnnotationRow)
  gtsOut : Option (List GtRowS)
deriving DecidableEq

/-- `tables(vcfFile, dataset, prefix, chunksize, verbose)` from
`vcf_to_parquet.py` (the verbose progress print is non-semantic and the
output path is identity-irrelevant, so both are dropped). -/
def tables_vcf (records : List VcfRecord) (samples : List String) (dataset : String)
    (eth birth : Nat → String) (chunksize : Nat) : Except String VcfRun :=
  match vcfLoop samples chunksize 0 records ⟨empty_tables, no_writers, empty_tables⟩ with
  | .error e => .error e
  | .ok st =>
    .ok ⟨write_callset_table samples dataset true,
      write_sample_table samples dataset eth birth true,
      artifactOf (vcf_final st).writers.variants (vcf_final st).out.variants,
      artifactOf (vcf_final st).writers.annotations (vcf_final st).out.annotations,
      artifactOf (vcf_final st).writers.gts (vcf_final st).out.gts⟩

/-! ## parquet_from_gnomad.py: synthetic genotype sampling and decoding -/

/-- One input record as handed over by the decoder in synthetic mode:
chromosome, position, reference allele, alternate alleles, and the
`AF` INFO value (`record.INFO.get('AF')`; `none` models a missing key). -/
structure GnomadRecord where
  CHROM : String
  POS : Int
  REF : String
  ALT : List String
  AF : Option ℚ
deriving DecidableEq

/-- Python truthiness of `record.INFO.get('AF')` as used in
`if not record.INFO.get('AF'): continue`: a missing value and the value
`0.0` are both falsy. -/
def afTruthy : Option ℚ → Bool
  | none => false
  | some q => decide (¬ q = 0)

/-- Inverse-CDF draw of one of the three categories `[0, 1, 3]` with
probabilities `p0, p1, 1 - p0 - p1` from one uniform draw `u`. -/
def choice3 (p0 p1 : ℚ) (u : ℚ) : Nat :=
  if u < p0 then 0 else if u < p0 + p1 then 1 else 3

/-- Models numpy's `np.random.choice([0,1,3], nsamples, p=[p0,p1,p2])`:
the probability vector is validated (negative entries or a sum different
from one raise `ValueError`) before any sampling happens, then `nsamples`
independent draws are taken from the external uniform draw oracle `u`. -/
def np_random_choice (nsamples : Nat) (p0 p1 p2 : ℚ) (u : Nat → ℚ) :
    Except String (List Nat) :=
  if p0 < 0 ∨ p1 < 0 ∨ p2 < 0 then .error errNegProb
  else if ¬ p0 + p1 + p2 = 1 then .error errProbSum
  else .ok ((List.range nsamples).map (fun i => choice3 p0 p1 (u i)))

/-- The Hardy-Weinberg sampling call of the source:
`p = 1. - q; np.random.choice([0,1,3], nsamples, p=[p*p, 2*p*q, q*q])`. -/
def gnomad_sample_gts (nsamples : Nat) (q : ℚ) (u : Nat → ℚ) :
    Except String (List Nat) :=
  np_random_choice nsamples ((1 - q) * (1 - q)) (2 * (1 - q) * q) (q * q) u

/-- Helper for the presence filter: the pairs (index, value) of the entries
with positive value, indices counted from `i` up.  This is
`np.where(gts > 0)[0]` zipped with `gts[samples_present]`. -/
def present_from : Nat → List Nat → List (Nat × Nat)
  | _, [] => []
  | i, g :: gs =>
    if 0 < g then (i, g) :: present_from (i + 1) gs else present_from (i + 1) gs

/-- The per-record decision of the synthetic loop body: skip (`.ok none`)
when the `AF` value is falsy or when no sampled genotype is present,
otherwise return the present (sample index, genotype code) pairs. -/
def gnomadPresent (nsamples : Nat) (u : Nat → ℚ) (r : GnomadRecord) :
    Except String (Option (List (Nat × Nat))) :=
  if afTruthy r.AF = false then .ok none
  else
    match gnomad_sample_gts nsamples (r.AF.getD 0) u with
    | .error e => .error e
    | .ok gts =>
      if (present_from 0 gts).length = 0 then .ok none
      else .ok (some (present_from 0 gts))

/-- The rows one record contributes in `parquet_from_gnomad.py`'s loop body,
given the running emission counter: `count` is incremented first, then one
variant row `(count, chrom, pos, ref, str(alt[0]))` and one genotype-call
row `(count, sample index, genotype code)` per present sample are appended;
a skipped record contributes nothing (`.ok none`). -/
def gnomadRecordRows (nsamples : Nat) (u : Nat → ℚ) (count : Nat) (r : GnomadRecord) :
    Except String (Option (Tbls GtRowN)) :=
  match gnomadPresent nsamples u r with
  | .error e => .error e
  | .ok none => .ok none
  | .ok (some pres) =>
    match r.ALT.head? with
    | none => .error errAltIndex
    | some alt =>
      .ok (some ⟨[⟨((count + 1 : Nat) : Int), r.CHROM, r.POS, r.REF, alt⟩], [],
        pres.map (fun pr => ⟨((count + 1 : Nat) : Int), pr.1, pr.2⟩)⟩)

/-- The mutable state of `tables` in `parquet_from_gnomad.py`: the emission
counter `count`, the row buffers, the writer flags, and the flushed rows. -/
structure GnomadState where
  count : Nat
  data_tables : Tbls GtRowN
  writers : Writers
  out : Tbls GtRowN
deriving DecidableEq

/-- One iteration of the `for nrec, record in enumerate(VCF(filename))`
loop: decode (or skip) the record, then flush and reset the buffers when
`len(data_tables["variants"]["vId"]) % chunksize == 0`. -/
def gnomadStep (nsamples chunksize : Nat) (u : Nat → ℚ) (r : GnomadRecord)
    (st : GnomadState) : Except String GnomadState :=
  match gnomadRecordRows nsamples u st.count r with
  | .error e => .error e
  | .ok none => .ok st
  | .ok (some rows) =>
    let dt := append3 st.data_tables rows
    if dt.variants.length % chunksize = 0 then
      .ok ⟨st.count + 1, empty_tables, (update_files dt st.writers st.out).1,
        (update_files dt st.writers st.out).2⟩
    else
      .ok ⟨st.count + 1, dt, st.writers, st.out⟩

/-- The record loop of `tables` in `parquet_from_gnomad.py`; `u nrec` is the
draw oracle consumed by record number `nrec`. -/
def gnomadLoop (nsamples chunksize : Nat) (u : Nat → Nat → ℚ) :
    Nat → List GnomadRecord → GnomadState → Except String GnomadState
  | _, [], st => .ok st
  | nrec, r :: rs, st =>
    match gnomadStep nsamples chunksize (u nrec) r st with
    | .error e => .error e
    | .ok st2 => gnomadLoop nsamples chunksize u (nrec + 1) rs st2

/-- The trailing `if len(data_tables["variants"]["vId"]): update_files(...)`
of the synthetic `tables`. -/
def gnomad_final (st : GnomadState) : GnomadState :=
  if st.data_tables.variants.length ≠ 0 then
    ⟨st.count, empty_tables, (update_files st.data_tables st.writers st.out).1,
      (update_files st.data_tables st.writers st.out).2⟩
  else st

/-- The artifacts `tables` of `parquet_from_gnomad.py` leaves behind
(the callsets and samples tables are written by the entry point, outside
this function). -/
structure GnomadRun where
  variantsOut : Option (List VariantRow)
  annotationsOut : Option (List AnnotationRow)
  gtsOut : Option (List GtRowN)
deriving DecidableEq

/-- `tables(filename, nsamples, dataset, prefix, chunksize, verbose)` from
`parquet_from_gnomad.py` (timing and progress prints are non-semantic and
are dropped). -/
def tables_gnomad (records : List GnomadRecord) (nsamples : Nat) (u : Nat → Nat → ℚ)
    (chunksize : Nat) : Except String GnomadRun :=
  match gnomadLoop nsamples chunksize u 0 records ⟨0, empty_tables, no_writers, empty_tables⟩ with
  | .error e => .error e
  | .ok st =>
    .ok ⟨artifactOf (gnomad_final st).writers.variants (gnomad_final st).out.variants,
      artifactOf (gnomad_final st).writers.annotations (gnomad_final st).out.annotations,
      artifactOf (gnomad_final st).writers.gts (gnomad_final st).out.gts⟩

/-! ## Chunk-free reference semantics for the vcf transform -/

/-- The rows the vcf loop body produces for the records `rs`, record
ordinals counted from `vid`, with no buffering at all. -/
def vcfRowsFrom (samples : List String) : Nat → List VcfRecord → Except String (Tbls GtRowS)
  | _, [] => .ok empty_tables
  | vid, r :: rs =>
    match vcfRecordRows samples vid r with
    | .error e => .error e
    | .ok rows =>
      match vcfRowsFrom samples (vid + 1) rs with
      | .error e => .error e
      | .ok rest => .ok (append3 rows rest)

/-- The loop followed by the trailing flush, as one function. -/
def vcfLoopFinal (samples : List String) (chunksize vid : Nat) (rs : List VcfRecord)
    (st : VcfState) : Except String VcfState :=
  match vcfLoop samples chunksize vid rs st with
  | .error e => .error e
  | .ok st2 => .ok (vcf_final st2)

theorem append3_assoc {γ : Type} (a b c : Tbls γ) :
    append3 (append3 a b) c = append3 a (append3 b c) := by
  simp [append3, List.append_assoc]

theorem append3_empty_right {γ : Type} (a : Tbls γ) : append3 a empty_tables = a := by
  simp [append3, empty_tables]

theorem append3_empty_left {γ : Type} (a : Tbls γ) : append3 empty_tables a = a := by
  simp [append3, empty_tables]

theorem orW_false (w : Writers) : orW w false = w := by
  simp [orW]

theorem orW_true (w : Writers) : orW w true = ⟨true, true, true⟩ := by
  simp [orW]

theorem orW_allTrue (b : Bool) : orW ⟨true, true, true⟩ b = ⟨true, true, true⟩ := by
  simp [orW]

theorem bnot_isEmpty_of_ne {α : Type} {l : List α} (h : ¬ l = []) : (!l.isEmpty) = true := by
  cases l with
  | nil => exact absurd rfl h
  | cons a t => rfl

theorem sample_to_sampleId_from_lt {i : Nat} {ss : List String} {t : String} {j : Nat}
    (h : sample_to_sampleId_from i ss t = some j) : j < i + ss.length := by
  induction ss generalizing i with
  | nil => simp [sample_to_sampleId_from] at h
  | cons s ss ih =>
    rw [sample_to_sampleId_from] at h
    cases hrec : sample_to_sampleId_from (i + 1) ss t with
    | some k =>
      rw [hrec] at h
      cases h
      have := ih hrec
      simp only [List.length_cons]
      omega
    | none =>
      rw [hrec] at h
      by_cases hs : s = t
      · simp [hs] at h
        simp only [List.length_cons]
        omega
      · simp [hs] at h

theorem vcfGtRows_mem {samples : List String} {vid : Nat} {geno : List (List Int × Bool)}
    {idxs : List Nat} {grows : List GtRowS}
    (h : vcfGtRows samples vid geno idxs = .ok grows) :
    ∀ g ∈ grows, g.vId = (vid : Int) ∧ g.callsetId < samples.length := by
  induction idxs generalizing grows with
  | nil =>
    rw [vcfGtRows] at h
    cases h
    intro g hg
    simp at hg
  | cons idx idxs ih =>
    rw [vcfGtRows] at h
    cases hsn : samples.get? idx with
    | none => simp only [hsn] at h; exact Except.noConfusion h
    | some sname =>
      simp only [hsn] at h
      cases hsid : sample_to_sampleId samples sname with
      | none => simp only [hsid] at h; exact Except.noConfusion h
      | some sid =>
        simp only [hsid] at h
        cases hg : geno.get? idx with
        | none => simp only [hg] at h; exact Except.noConfusion h
        | some gg =>
          simp only [hg] at h
          cases hrest : vcfGtRows samples vid geno idxs with
          | error e => simp only [hrest] at h; exact Except.noConfusion h
          | ok rest =>
            simp only [hrest] at h
            cases h
            intro g hgmem
            rcases List.mem_cons.mp hgmem with hhead | htail
            · subst hhead
              refine ⟨rfl, ?_⟩
              show sid < samples.length
              have hlt : sid < 0 + samples.length :=
                sample_to_sampleId_from_lt hsid
              omega
            · exact ih hrest g htail

theorem vcfRecordRows_shape {samples : List String} {vid : Nat} {r : VcfRecord}
    {rows : Tbls GtRowS} (h : vcfRecordRows samples vid r = .ok rows) :
    (∃ alt, rows.variants = [⟨(vid : Int), r.CHROM, r.POS, r.REF, alt⟩]) ∧
    (∃ gsym, r.geneSymbol = some gsym ∧
      rows.annotations = (if geneSymbol_truthy gsym then [⟨(vid : Int), gsym⟩] else [])) ∧
    (∀ g ∈ rows.gts, g.vId = (vid : Int) ∧ g.callsetId < samples.length) := by
  rw [vcfRecordRows] at h
  cases halt : r.ALT.head? with
  | none => rw [halt] at h; cases h
  | some alt =>
    rw [halt] at h
    cases hgs : r.geneSymbol with
    | none => simp only [hgs] at h; exact Except.noConfusion h
    | some gsym =>
      simp only [hgs] at h
      cases hgr : vcfGtRows samples vid r.genotypes (has_calls r.gt_types) with
      | error e => simp only [hgr] at h; exact Except.noConfusion h
      | ok grows =>
        simp only [hgr] at h
        cases h
        exact ⟨⟨alt, rfl⟩, ⟨gsym, rfl, rfl⟩, vcfGtRows_mem hgr⟩

theorem vcfRecordRows_variants_ne {samples : List String} {vid : Nat} {r : VcfRecord}
    {rows : Tbls GtRowS} (h : vcfRecordRows samples vid r = .ok rows) :
    ¬ rows.variants = [] := by
  obtain ⟨⟨alt, hv⟩, -, -⟩ := vcfRecordRows_shape h
  rw [hv]
  simp

theorem vcfStep_ok (samples : List String) (c vid : Nat) (r : VcfRecord) (st : VcfState)
    (rows : Tbls GtRowS) (hrr : vcfRecordRows samples vid r = .ok rows) :
    vcfStep samples c vid r st =
      if (vid + 1) % c = 0 then
        .ok ⟨empty_tables, (update_files (append3 st.data_tables rows) st.writers st.out).1,
          (update_files (append3 st.data_tables rows) st.writers st.out).2⟩
      else .ok ⟨append3 st.data_tables rows, st.writers, st.out⟩ := by
  simp only [vcfStep, hrr]

theorem vcfStep_err (samples : List String) (c vid : Nat) (r : VcfRecord) (st : VcfState)
    (e : String) (hrr : vcfRecordRows samples vid r = .error e) :
    vcfStep samples c vid r st = .error e := by
  simp only [vcfStep, hrr]

theorem vcfLoopFinal_cons_ok (samples : List String) (c vid : Nat) (r : VcfRecord)
    (rs : List VcfRecord) (st st2 : VcfState)
    (hstep : vcfStep samples c vid r st = .ok st2) :
    vcfLoopFinal samples c vid (r :: rs) st = vcfLoopFinal samples c (vid + 1) rs st2 := by
  simp only [vcfLoopFinal, vcfLoop, hstep]

theorem vcfLoopFinal_cons_err (samples : List String) (c vid : Nat) (r : VcfRecord)
    (rs : List VcfRecord) (st : VcfState) (e : String)
    (hstep : vcfStep samples c vid r st = .error e) :
    vcfLoopFinal samples c vid (r :: rs) st = .error e := by
  simp only [vcfLoopFinal, vcfLoop, hstep]

theorem vcfRowsFrom_cons_ok (samples : List String) (vid : Nat) (r : VcfRecord)
    (rs : List VcfRecord) (rows : Tbls GtRowS)
    (hrr : vcfRecordRows samples vid r = .ok rows) :
    vcfRowsFrom samples vid (r :: rs) =
      match vcfRowsFrom samples (vid + 1) rs with
      | .error e => .error e
      | .ok rest => .ok (append3 rows rest) := by
  simp only [vcfRowsFrom, hrr]

theorem vcfRowsFrom_cons_err (samples : List String) (vid : Nat) (r : VcfRecord)
    (rs : List VcfRecord) (e : String)
    (hrr : vcfRecordRows samples vid r = .error e) :
    vcfRowsFrom samples vid (r :: rs) = .error e := by
  simp only [vcfRowsFrom, hrr]

/-- Chunking is invisible: running the loop with any chunk size and then
flushing the remainder appends exactly the chunk-free row stream to the
already-written output, with the writers becoming created as soon as any
variant row exists. -/
theorem vcfLoopFinal_norm (samples : List String) (c : Nat) :
    ∀ (rs : List VcfRecord) (vid : Nat) (st : VcfState),
      (st.data_tables.variants = [] → st.data_tables = empty_tables) →
      vcfLoopFinal samples c vid rs st =
        (match vcfRowsFrom samples vid rs with
         | .error e => .error e
         | .ok rows => .ok ⟨empty_tables,
             orW st.writers (!(st.data_tables.variants ++ rows.variants).isEmpty),
             append3 st.out (append3 st.data_tables rows)⟩) := by
  intro rs
  induction rs with
  | nil =>
    intro vid st hbuf
    obtain ⟨dt, w, out⟩ := st
    rw [vcfRowsFrom]
    simp only [vcfLoopFinal, vcfLoop]
    by_cases hv : dt.variants = []
    · have hdt : dt = empty_tables := hbuf hv
      subst hdt
      simp [vcf_final, empty_tables, orW, append3]
    · simp only [vcf_final]
      rw [if_pos (by simpa [List.length_eq_zero] using hv)]
      have h2 : ¬ dt.variants ++ (empty_tables : Tbls GtRowS).variants = [] := by
        simpa [empty_tables] using hv
      rw [bnot_isEmpty_of_ne h2, orW_true]
      simp [update_files, append3, empty_tables]
  | cons r rs ih =>
    intro vid st hbuf
    cases hrr : vcfRecordRows samples vid r with
    | error e =>
      rw [vcfLoopFinal_cons_err samples c vid r rs st e
        (vcfStep_err samples c vid r st e hrr),
        vcfRowsFrom_cons_err samples vid r rs e hrr]
    | ok rows =>
      have hvne : ¬ rows.variants = [] := vcfRecordRows_variants_ne hrr
      rw [vcfRowsFrom_cons_ok samples vid r rs rows hrr]
      by_cases hfl : (vid + 1) % c = 0
      · rw [vcfLoopFinal_cons_ok samples c vid r rs st
          ⟨empty_tables, (update_files (append3 st.data_tables rows) st.writers st.out).1,
            (update_files (append3 st.data_tables rows) st.writers st.out).2⟩
          (by rw [vcfStep_ok samples c vid r st rows hrr, if_pos hfl])]
        rw [ih (vid + 1) ⟨empty_tables, (update_files (append3 st.data_tables rows)
          st.writers st.out).1, (update_files (append3 st.data_tables rows)
          st.writers st.out).2⟩ (fun _ => rfl)]
        cases hrest : vcfRowsFrom samples (vid + 1) rs with
        | error e => rfl
        | ok rest =>
          have hb : (!(st.data_tables.variants ++ (append3 rows rest).variants).isEmpty)
              = true := by
            apply bnot_isEmpty_of_ne
            intro hcontra
            apply hvne
            rcases List.append_eq_nil.mp (by
              simpa [append3] using hcontra : st.data_tables.variants ++
                (rows.variants ++ rest.variants) = []) with ⟨-, h3⟩
            exact (List.append_eq_nil.mp h3).1
          simp only [update_files, empty_tables, orW_allTrue, hb, orW_true]
          simp [append3, List.append_assoc, empty_tables]
      · rw [vcfLoopFinal_cons_ok samples c vid r rs st
          ⟨append3 st.data_tables rows, st.writers, st.out⟩
          (by rw [vcfStep_ok samples c vid r st rows hrr, if_neg hfl])]
        rw [ih (vid + 1) ⟨append3 st.data_tables rows, st.writers, st.out⟩ (by
          intro hcontra
          exfalso
          apply hvne
          have hsplit : st.data_tables.variants ++ rows.variants = [] := by
            simpa [append3] using hcontra
          exact (List.append_eq_nil.mp hsplit).2)]
        cases hrest : vcfRowsFrom samples (vid + 1) rs with
        | error e => rfl
        | ok rest =>
          simp [append3, List.append_assoc]

/-- The whole vcf run in chunk-free form: the produced artifacts are exactly
the reference row stream, and do not depend on the chunk size. -/
theorem tables_vcf_eq_ref (records : List VcfRecord) (samples : List String)
    (dataset : String) (eth birth : Nat → String) (c : Nat) :
    tables_vcf records samples dataset eth birth c =
      (match vcfRowsFrom samples 0 records with
       | .error e => .error e
       | .ok rows => .ok ⟨write_callset_table samples dataset true,
           write_sample_table samples dataset eth birth true,
           artifactOf (!rows.variants.isEmpty) rows.variants,
           artifactOf (!rows.variants.isEmpty) rows.annotations,
           artifactOf (!rows.variants.isEmpty) rows.gts⟩) := by
  have hnorm := vcfLoopFinal_norm samples c records 0
    ⟨empty_tables, no_writers, empty_tables⟩ (fun _ => rfl)
  cases hloop : vcfLoop samples c 0 records ⟨empty_tables, no_writers, empty_tables⟩ with
  | error e =>
    have h1 : vcfLoopFinal samples c 0 records ⟨empty_tables, no_writers, empty_tables⟩
        = .error e := by
      simp only [vcfLoopFinal, hloop]
    rw [h1] at hnorm
    cases hrows : vcfRowsFrom samples 0 records with
    | error e2 =>
      simp only [hrows] at hnorm
      simp only [tables_vcf, hloop, hrows]
      rw [Except.error.inj hnorm]
    | ok rows =>
      simp only [hrows] at hnorm
      exact absurd hnorm (by simp)
  | ok st =>
    have h1 : vcfLoopFinal samples c 0 records ⟨empty_tables, no_writers, empty_tables⟩
        = .ok (vcf_final st) := by
      simp only [vcfLoopFinal, hloop]
    rw [h1] at hnorm
    cases hrows : vcfRowsFrom samples 0 records with
    | error e2 =>
      simp only [hrows] at hnorm
      exact absurd hnorm (by simp)
    | ok rows =>
      simp only [hrows] at hnorm
      have hfin : vcf_final st = ⟨empty_tables,
          orW no_writers (!((empty_tables : Tbls GtRowS).variants ++ rows.variants).isEmpty),
          append3 empty_tables (append3 empty_tables rows)⟩ := by
        exact Except.ok.inj hnorm
      simp only [tables_vcf, hloop, hfin]
      simp [orW, no_writers, empty_tables, append3, artifactOf]

/-- The column `vId` of the variants rows of the reference stream is the
list of input record ordinals, every record contributing exactly one row. -/
theorem vcfRowsFrom_vIds (samples : List String) :
    ∀ (rs : List VcfRecord) (vid : Nat) (rows : Tbls GtRowS),
      vcfRowsFrom samples vid rs = .ok rows →
      rows.variants.map (fun v => v.vId) =
        (List.range' vid rs.length).map (fun (k : Nat) => (k : Int)) := by
  intro rs
  induction rs with
  | nil =>
    intro vid rows h
    rw [vcfRowsFrom] at h
    cases h
    simp [empty_tables]
  | cons r rs ih =>
    intro vid rows h
    rw [vcfRowsFrom] at h
    cases hrr : vcfRecordRows samples vid r with
    | error e => simp only [hrr] at h; exact Except.noConfusion h
    | ok rrows =>
      simp only [hrr] at h
      cases hrest : vcfRowsFrom samples (vid + 1) rs with
      | error e => simp only [hrest] at h; exact Except.noConfusion h
      | ok rest =>
        simp only [hrest] at h
        cases h
        obtain ⟨⟨alt, hv⟩, -, -⟩ := vcfRecordRows_shape hrr
        simp only [append3, hv, List.map_append, List.length_cons, List.range'_succ,
          List.map_cons]
        rw [ih (vid + 1) rest hrest]
        simp

/-- Every genotype-call row of the reference stream carries a callset id
below the number of samples. -/
theorem vcfRowsFrom_gts_bound (samples : List String) :
    ∀ (rs : List VcfRecord) (vid : Nat) (rows : Tbls GtRowS),
      vcfRowsFrom samples vid rs = .ok rows →
      ∀ g ∈ rows.gts, g.callsetId < samples.length := by
  intro rs
  induction rs with
  | nil =>
    intro vid rows h
    rw [vcfRowsFrom] at h
    cases h
    intro g hg
    simp [empty_tables] at hg
  | cons r rs ih =>
    intro vid rows h
    rw [vcfRowsFrom] at h
    cases hrr : vcfRecordRows samples vid r with
    | error e => simp only [hrr] at h; exact Except.noConfusion h
    | ok rrows =>
      simp only [hrr] at h
      cases hrest : vcfRowsFrom samples (vid + 1) rs with
      | error e => simp only [hrest] at h; exact Except.noConfusion h
      | ok rest =>
        simp only [hrest] at h
        cases h
        intro g hg
        simp only [append3, List.mem_append] at hg
        rcases hg with hg1 | hg2
        · exact ((vcfRecordRows_shape hrr).2.2 g hg1).2
        · exact ih (vid + 1) rest hrest g hg2

/-- The annotation rows one record contributes once its `geneSymbol` INFO
value is known to be present: one row when that value is truthy, none when
it is the falsy empty string.  (The `none` branch is unreachable in a
completed run — an absent key aborts the run instead.) -/
def geneSymbol_rows (vid : Nat) : Option String → List AnnotationRow
  | some gsym => if geneSymbol_truthy gsym then [⟨(vid : Int), gsym⟩] else []
  | none => []

/-- The annotation rows the records `rs` produce, ordinals from `vid` up. -/
def annListFrom : Nat → List VcfRecord → List AnnotationRow
  | _, [] => []
  | vid, r :: rs => geneSymbol_rows vid r.geneSymbol ++ annListFrom (vid + 1) rs

theorem geneSymbol_rows_vId (vid : Nat) (og : Option String) :
    ∀ a ∈ geneSymbol_rows vid og, a.vId = (vid : Int) := by
  intro a ha
  cases og with
  | none => simp [geneSymbol_rows] at ha
  | some gsym =>
    simp only [geneSymbol_rows] at ha
    by_cases hg : geneSymbol_truthy gsym
    · simp only [if_pos hg, List.mem_singleton] at ha
      subst ha
      rfl
    · simp [if_neg hg] at ha

/-- The annotations table of the reference stream is `annListFrom`. -/
theorem vcfRowsFrom_ann (samples : List String) :
    ∀ (rs : List VcfRecord) (vid : Nat) (rows : Tbls GtRowS),
      vcfRowsFrom samples vid rs = .ok rows →
      rows.annotations = annListFrom vid rs := by
  intro rs
  induction rs with
  | nil =>
    intro vid rows h
    rw [vcfRowsFrom] at h
    cases h
    rfl
  | cons r rs ih =>
    intro vid rows h
    rw [vcfRowsFrom] at h
    cases hrr : vcfRecordRows samples vid r with
    | error e => simp only [hrr] at h; exact Except.noConfusion h
    | ok rrows =>
      simp only [hrr] at h
      cases hrest : vcfRowsFrom samples (vid + 1) rs with
      | error e => simp only [hrest] at h; exact Except.noConfusion h
      | ok rest =>
        simp only [hrest] at h
        cases h
        obtain ⟨-, ⟨gsym, hgs, hann⟩, -⟩ := vcfRecordRows_shape hrr
        simp only [append3, hann, annListFrom, hgs, geneSymbol_rows]
        rw [ih (vid + 1) rest hrest]

theorem annListFrom_lb :
    ∀ (rs : List VcfRecord) (vid : Nat) (a : AnnotationRow),
      a ∈ annListFrom vid rs → (vid : Int) ≤ a.vId := by
  intro rs
  induction rs with
  | nil => intro vid a ha; simp [annListFrom] at ha
  | cons r rs ih =>
    intro vid a ha
    simp only [annListFrom, List.mem_append] at ha
    rcases ha with ha1 | ha2
    · exact ge_of_eq (geneSymbol_rows_vId vid r.geneSymbol a ha1)
    · have := ih (vid + 1) a ha2
      omega

theorem annListFrom_mem_bound :
    ∀ (rs : List VcfRecord) (vid : Nat) (a : AnnotationRow),
      a ∈ annListFrom vid rs → ∃ k, k < rs.length ∧ a.vId = ((vid + k : Nat) : Int) := by
  intro rs
  induction rs with
  | nil => intro vid a ha; simp [annListFrom] at ha
  | cons r rs ih =>
    intro vid a ha
    simp only [annListFrom, List.mem_append] at ha
    rcases ha with ha1 | ha2
    · refine ⟨0, by simp, ?_⟩
      rw [geneSymbol_rows_vId vid r.geneSymbol a ha1]
      simp
    · obtain ⟨k, hk, hvk⟩ := ih (vid + 1) a ha2
      refine ⟨k + 1, by simpa using Nat.succ_lt_succ hk, ?_⟩
      rw [hvk]
      congr 1
      omega

/-- Exactly one annotation row carries ordinal `vid + k` when record `k`'s
present gene-symbol value is truthy, and none otherwise. -/
theorem annListFrom_count :
    ∀ (rs : List VcfRecord) (vid k : Nat) (r : VcfRecord) (gsym : String),
      rs.get? k = some r → r.geneSymbol = some gsym →
      ((annListFrom vid rs).filter
        (fun a => decide (a.vId = ((vid + k : Nat) : Int)))).length =
        if geneSymbol_truthy gsym then 1 else 0 := by
  intro rs
  induction rs with
  | nil => intro vid k r gsym hk hgs; simp at hk
  | cons r0 rs ih =>
    intro vid k r gsym hk hgs
    cases k with
    | zero =>
      simp only [List.get?] at hk
      cases hk
      simp only [annListFrom, List.filter_append, List.length_append]
      have htail : ((annListFrom (vid + 1) rs).filter
          (fun a => decide (a.vId = ((vid + 0 : Nat) : Int)))).length = 0 := by
        rw [List.length_eq_zero]
        rw [List.filter_eq_nil]
        intro a ha
        have := annListFrom_lb rs (vid + 1) a ha
        simp only [decide_eq_true_eq]
        intro hcontra
        rw [hcontra] at this
        have h2 : (vid + 1 : Int) ≤ ((vid + 0 : Nat) : Int) := by exact_mod_cast this
        omega
      rw [htail, hgs]
      simp only [geneSymbol_rows]
      by_cases hg : geneSymbol_truthy gsym
      · simp [if_pos hg]
      · simp [if_neg hg]
    | succ k =>
      simp only [List.get?] at hk
      have hhead : ((geneSymbol_rows vid r0.geneSymbol).filter
          (fun a => decide (a.vId = ((vid + (k + 1) : Nat) : Int)))).length = 0 := by
        rw [List.length_eq_zero, List.filter_eq_nil]
        intro a ha
        have hv := geneSymbol_rows_vId vid r0.geneSymbol a ha
        simp only [decide_eq_true_eq]
        intro hcontra
        rw [hv] at hcontra
        have : vid = vid + (k + 1) := by exact_mod_cast hcontra
        omega
      simp only [annListFrom, List.filter_append, List.length_append, hhead]
      have := ih (vid + 1) k r gsym hk hgs
      have harith : ((vid + 1) + k : Nat) = (vid + (k + 1) : Nat) := by omega
      rw [harith] at this
      rw [this]
      omega

/-! ## Chunk-free reference semantics for the gnomad transform -/

/-- The rows the synthetic loop body produces for the records `rs`, with
record numbers from `nrec` and the emission counter from `count` up, and
the final counter value. -/
def gnomadRowsFrom (nsamples : Nat) (u : Nat → Nat → ℚ) :
    Nat → Nat → List GnomadRecord → Except String (Tbls GtRowN × Nat)
  | _, count, [] => .ok (empty_tables, count)
  | nrec, count, r :: rs =>
    match gnomadRecordRows nsamples (u nrec) count r with
    | .error e => .error e
    | .ok none => gnomadRowsFrom nsamples u (nrec + 1) count rs
    | .ok (some rows) =>
      match gnomadRowsFrom nsamples u (nrec + 1) (count + 1) rs with
      | .error e => .error e
      | .ok (rest, cfin) => .ok (append3 rows rest, cfin)

/-- The synthetic loop followed by the trailing flush, as one function. -/
def gnomadLoopFinal (nsamples chunksize : Nat) (u : Nat → Nat → ℚ) (nrec : Nat)
    (rs : List GnomadRecord) (st : GnomadState) : Except String GnomadState :=
  match gnomadLoop nsamples chunksize u nrec rs st with
  | .error e => .error e
  | .ok st2 => .ok (gnomad_final st2)

theorem gnomadStep_err (nsamples c : Nat) (u : Nat → ℚ) (r : GnomadRecord)
    (st : GnomadState) (e : String)
    (hrr : gnomadRecordRows nsamples u st.count r = .error e) :
    gnomadStep nsamples c u r st = .error e := by
  simp only [gnomadStep, hrr]

theorem gnomadStep_none (nsamples c : Nat) (u : Nat → ℚ) (r : GnomadRecord)
    (st : GnomadState) (hrr : gnomadRecordRows nsamples u st.count r = .ok none) :
    gnomadStep nsamples c u r st = .ok st := by
  simp only [gnomadStep, hrr]

theorem gnomadStep_some (nsamples c : Nat) (u : Nat → ℚ) (r : GnomadRecord)
    (st : GnomadState) (rows : Tbls GtRowN)
    (hrr : gnomadRecordRows nsamples u st.count r = .ok (some rows)) :
    gnomadStep nsamples c u r st =
      if (append3 st.data_tables rows).variants.length % c = 0 then
        .ok ⟨st.count + 1, empty_tables,
          (update_files (append3 st.data_tables rows) st.writers st.out).1,
          (update_files (append3 st.data_tables rows) st.writers st.out).2⟩
      else .ok ⟨st.count + 1, append3 st.data_tables rows, st.writers, st.out⟩ := by
  simp only [gnomadStep, hrr]

theorem gnomadLoopFinal_cons_ok (nsamples c : Nat) (u : Nat → Nat → ℚ) (nrec : Nat)
    (r : GnomadRecord) (rs : List GnomadRecord) (st st2 : GnomadState)
    (hstep : gnomadStep nsamples c (u nrec) r st = .ok st2) :
    gnomadLoopFinal nsamples c u nrec (r :: rs) st =
      gnomadLoopFinal nsamples c u (nrec + 1) rs st2 := by
  simp only [gnomadLoopFinal, gnomadLoop, hstep]

theorem gnomadLoopFinal_cons_err (nsamples c : Nat) (u : Nat → Nat → ℚ) (nrec : Nat)
    (r : GnomadRecord) (rs : List GnomadRecord) (st : GnomadState) (e : String)
    (hstep : gnomadStep nsamples c (u nrec) r st = .error e) :
    gnomadLoopFinal nsamples c u nrec (r :: rs) st = .error e := by
  simp only [gnomadLoopFinal, gnomadLoop, hstep]

theorem gnomadRowsFrom_cons_err (nsamples : Nat) (u : Nat → Nat → ℚ) (nrec count : Nat)
    (r : GnomadRecord) (rs : List GnomadRecord) (e : String)
    (hrr : gnomadRecordRows nsamples (u nrec) count r = .error e) :
    gnomadRowsFrom nsamples u nrec count (r :: rs) = .error e := by
  simp only [gnomadRowsFrom, hrr]

theorem gnomadRowsFrom_cons_none (nsamples : Nat) (u : Nat → Nat → ℚ) (nrec count : Nat)
    (r : GnomadRecord) (rs : List GnomadRecord)
    (hrr : gnomadRecordRows nsamples (u nrec) count r = .ok none) :
    gnomadRowsFrom nsamples u nrec count (r :: rs) =
      gnomadRowsFrom nsamples u (nrec + 1) count rs := by
  simp only [gnomadRowsFrom, hrr]

theorem gnomadRowsFrom_cons_some (nsamples : Nat) (u : Nat → Nat → ℚ) (nrec count : Nat)
    (r : GnomadRecord) (rs : List GnomadRecord) (rows : Tbls GtRowN)
    (hrr : gnomadRecordRows nsamples (u nrec) count r = .ok (some rows)) :
    gnomadRowsFrom nsamples u nrec count (r :: rs) =
      match gnomadRowsFrom nsamples u (nrec + 1) (count + 1) rs with
      | .error e => .error e
      | .ok (rest, cfin) => .ok (append3 rows rest, cfin) := by
  simp only [gnomadRowsFrom, hrr]

theorem gnomadRecordRows_shape (nsamples : Nat) (u : Nat → ℚ) (count : Nat)
    (r : GnomadRecord) (rows : Tbls GtRowN)
    (h : gnomadRecordRows nsamples u count r = .ok (some rows)) :
    (∃ alt, rows.variants = [⟨((count + 1 : Nat) : Int), r.CHROM, r.POS, r.REF, alt⟩]) ∧
    rows.annotations = [] ∧
    (∃ pres, gnomadPresent nsamples u r = .ok (some pres) ∧
      rows.gts = pres.map (fun pr => ⟨((count + 1 : Nat) : Int), pr.1, pr.2⟩)) := by
  rw [gnomadRecordRows] at h
  cases hp : gnomadPresent nsamples u r with
  | error e => simp only [hp] at h; exact Except.noConfusion h
  | ok op =>
    cases op with
    | none => simp only [hp] at h; exact Option.noConfusion (Except.ok.inj h)
    | some pres =>
      simp only [hp] at h
      cases halt : r.ALT.head? with
      | none => simp only [halt] at h; exact Except.noConfusion h
      | some alt =>
        simp only [halt] at h
        cases h
        exact ⟨⟨alt, rfl⟩, rfl, pres, rfl, rfl⟩

theorem gnomadRecordRows_variants_ne (nsamples : Nat) (u : Nat → ℚ) (count : Nat)
    (r : GnomadRecord) (rows : Tbls GtRowN)
    (h : gnomadRecordRows nsamples u count r = .ok (some rows)) :
    ¬ rows.variants = [] := by
  obtain ⟨⟨alt, hv⟩, -, -⟩ := gnomadRecordRows_shape nsamples u count r rows h
  rw [hv]
  simp

/-- Chunking is invisible in the synthetic transform as well. -/
theorem gnomadLoopFinal_norm (nsamples c : Nat) (u : Nat → Nat → ℚ) :
    ∀ (rs : List GnomadRecord) (nrec : Nat) (st : GnomadState),
      (st.data_tables.variants = [] → st.data_tables = empty_tables) →
      gnomadLoopFinal nsamples c u nrec rs st =
        (match gnomadRowsFrom nsamples u nrec st.count rs with
         | .error e => .error e
         | .ok (rows, cfin) => .ok ⟨cfin, empty_tables,
             orW st.writers (!(st.data_tables.variants ++ rows.variants).isEmpty),
             append3 st.out (append3 st.data_tables rows)⟩) := by
  intro rs
  induction rs with
  | nil =>
    intro nrec st hbuf
    obtain ⟨count, dt, w, out⟩ := st
    rw [gnomadRowsFrom]
    simp only [gnomadLoopFinal, gnomadLoop]
    by_cases hv : dt.variants = []
    · have hdt : dt = empty_tables := hbuf hv
      subst hdt
      simp [gnomad_final, empty_tables, orW, append3]
    · simp only [gnomad_final]
      rw [if_pos (by simpa [List.length_eq_zero] using hv)]
      have h2 : ¬ dt.variants ++ (empty_tables : Tbls GtRowN).variants = [] := by
        simpa [empty_tables] using hv
      rw [bnot_isEmpty_of_ne h2, orW_true]
      simp [update_files, append3, empty_tables]
  | cons r rs ih =>
    intro nrec st hbuf
    cases hrr : gnomadRecordRows nsamples (u nrec) st.count r with
    | error e =>
      rw [gnomadLoopFinal_cons_err nsamples c u nrec r rs st e
        (gnomadStep_err nsamples c (u nrec) r st e hrr),
        gnomadRowsFrom_cons_err nsamples u nrec st.count r rs e hrr]
    | ok op =>
      cases op with
      | none =>
        rw [gnomadLoopFinal_cons_ok nsamples c u nrec r rs st st
          (gnomadStep_none nsamples c (u nrec) r st hrr),
          gnomadRowsFrom_cons_none nsamples u nrec st.count r rs hrr]
        exact ih (nrec + 1) st hbuf
      | some rows =>
        have hvne : ¬ rows.variants = [] :=
          gnomadRecordRows_variants_ne nsamples (u nrec) st.count r rows hrr
        rw [gnomadRowsFrom_cons_some nsamples u nrec st.count r rs rows hrr]
        by_cases hfl : (append3 st.data_tables rows).variants.length % c = 0
        · rw [gnomadLoopFinal_cons_ok nsamples c u nrec r rs st
            ⟨st.count + 1, empty_tables,
              (update_files (append3 st.data_tables rows) st.writers st.out).1,
              (update_files (append3 st.data_tables rows) st.writers st.out).2⟩
            (by rw [gnomadStep_some nsamples c (u nrec) r st rows hrr, if_pos hfl])]
          rw [ih (nrec + 1) ⟨st.count + 1, empty_tables,
            (update_files (append3 st.data_tables rows) st.writers st.out).1,
            (update_files (append3 st.data_tables rows) st.writers st.out).2⟩ (fun _ => rfl)]
          cases hrest : gnomadRowsFrom nsamples u (nrec + 1) (st.count + 1) rs with
          | error e => rfl
          | ok pr =>
            obtain ⟨rest, cfin⟩ := pr
            have hb : (!(st.data_tables.variants ++ (append3 rows rest).variants).isEmpty)
                = true := by
              apply bnot_isEmpty_of_ne
              intro hcontra
              apply hvne
              rcases List.append_eq_nil.mp (by
                simpa [append3] using hcontra : st.data_tables.variants ++
                  (rows.variants ++ rest.variants) = []) with ⟨-, h3⟩
              exact (List.append_eq_nil.mp h3).1
            simp only [update_files, empty_tables, orW_allTrue, hb, orW_true]
            simp [append3, List.append_assoc, empty_tables]
        · rw [gnomadLoopFinal_cons_ok nsamples c u nrec r rs st
            ⟨st.count + 1, append3 st.data_tables rows, st.writers, st.out⟩
            (by rw [gnomadStep_some nsamples c (u nrec) r st rows hrr, if_neg hfl])]
          rw [ih (nrec + 1) ⟨st.count + 1, append3 st.data_tables rows, st.writers, st.out⟩ (by
            intro hcontra
            exfalso
            apply hvne
            have hsplit : st.data_tables.variants ++ rows.variants = [] := by
              simpa [append3] using hcontra
            exact (List.append_eq_nil.mp hsplit).2)]
          cases hrest : gnomadRowsFrom nsamples u (nrec + 1) (st.count + 1) rs with
          | error e => rfl
          | ok pr =>
            obtain ⟨rest, cfin⟩ := pr
            simp [append3, List.append_assoc]

/-- The whole synthetic run in chunk-free form. -/
theorem tables_gnomad_eq_ref (records : List GnomadRecord) (nsamples : Nat)
    (u : Nat → Nat → ℚ) (c : Nat) :
    tables_gnomad records nsamples u c =
      (match gnomadRowsFrom nsamples u 0 0 records with
       | .error e => .error e
       | .ok (rows, _) => .ok ⟨artifactOf (!rows.variants.isEmpty) rows.variants,
           artifactOf (!rows.variants.isEmpty) rows.annotations,
           artifactOf (!rows.variants.isEmpty) rows.gts⟩) := by
  have hnorm := gnomadLoopFinal_norm nsamples c u records 0
    ⟨0, empty_tables, no_writers, empty_tables⟩ (fun _ => rfl)
  cases hloop : gnomadLoop nsamples c u 0 records ⟨0, empty_tables, no_writers, empty_tables⟩ with
  | error e =>
    have h1 : gnomadLoopFinal nsamples c u 0 records ⟨0, empty_tables, no_writers, empty_tables⟩
        = .error e := by
      simp only [gnomadLoopFinal, hloop]
    rw [h1] at hnorm
    cases hrows : gnomadRowsFrom nsamples u 0 0 records with
    | error e2 =>
      simp only [hrows] at hnorm
      simp only [tables_gnomad, hloop, hrows]
      rw [Except.error.inj hnorm]
    | ok pr =>
      obtain ⟨rows, cfin⟩ := pr
      simp only [hrows] at hnorm
      exact absurd hnorm (by simp)
  | ok st =>
    have h1 : gnomadLoopFinal nsamples c u 0 records ⟨0, empty_tables, no_writers, empty_tables⟩
        = .ok (gnomad_final st) := by
      simp only [gnomadLoopFinal, hloop]
    rw [h1] at hnorm
    cases hrows : gnomadRowsFrom nsamples u 0 0 records with
    | error e2 =>
      simp only [hrows] at hnorm
      exact absurd hnorm (by simp)
    | ok pr =>
      obtain ⟨rows, cfin⟩ := pr
      simp only [hrows] at hnorm
      have hfin : gnomad_final st = ⟨cfin, empty_tables,
          orW no_writers (!((empty_tables : Tbls GtRowN).variants ++ rows.variants).isEmpty),
          append3 empty_tables (append3 empty_tables rows)⟩ := by
        exact Except.ok.inj hnorm
      simp only [tables_gnomad, hloop, hfin]
      simp [orW, no_writers, empty_tables, append3, artifactOf]

/-- The `vId` column of the synthetic variants rows is the dense counter
sequence from `count + 1` to the final counter value: skipped records
consume no identifier and ids are consecutive. -/
theorem gnomadRowsFrom_vIds (nsamples : Nat) (u : Nat → Nat → ℚ) :
    ∀ (rs : List GnomadRecord) (nrec count : Nat) (rows : Tbls GtRowN) (cfin : Nat),
      gnomadRowsFrom nsamples u nrec count rs = .ok (rows, cfin) →
      count ≤ cfin ∧
      rows.variants.map (fun v => v.vId) =
        (List.range' (count + 1) (cfin - count)).map (fun (k : Nat) => (k : Int)) := by
  intro rs
  induction rs with
  | nil =>
    intro nrec count rows cfin h
    rw [gnomadRowsFrom] at h
    cases h
    simp [empty_tables]
  | cons r rs ih =>
    intro nrec count rows cfin h
    rw [gnomadRowsFrom] at h
    cases hrr : gnomadRecordRows nsamples (u nrec) count r with
    | error e => simp only [hrr] at h; exact Except.noConfusion h
    | ok op =>
      cases op with
      | none =>
        simp only [hrr] at h
        exact ih (nrec + 1) count rows cfin h
      | some rrows =>
        simp only [hrr] at h
        cases hrest : gnomadRowsFrom nsamples u (nrec + 1) (count + 1) rs with
        | error e => simp only [hrest] at h; exact Except.noConfusion h
        | ok pr =>
          obtain ⟨rest, cfin2⟩ := pr
          simp only [hrest] at h
          cases h
          obtain ⟨hle, hmap⟩ := ih (nrec + 1) (count + 1) rest cfin hrest
          obtain ⟨⟨alt, hv⟩, -, -⟩ := gnomadRecordRows_shape nsamples (u nrec) count r rrows hrr
          refine ⟨by omega, ?_⟩
          have hd : cfin - count = (cfin - (count + 1)) + 1 := by omega
          rw [hd, List.range'_succ]
          simp only [append3, hv, List.map_append, List.map_cons]
          rw [hmap]
          simp

/-- Whether the synthetic loop body emits rows for a record: the `AF` value
is truthy and at least one sampled genotype is present.  (The emission
decision does not depend on the running counter.) -/
def gnomad_emits (nsamples : Nat) (u : Nat → ℚ) (r : GnomadRecord) : Bool :=
  match gnomadPresent nsamples u r with
  | .ok (some _) => true
  | _ => false

/-- The number of records of `rs` (record numbers from `nrec` up) for which
the synthetic loop body emits rows. -/
def emits_count (nsamples : Nat) (u : Nat → Nat → ℚ) : Nat → List GnomadRecord → Nat
  | _, [] => 0
  | nrec, r :: rs =>
    (if gnomad_emits nsamples (u nrec) r then 1 else 0) +
      emits_count nsamples u (nrec + 1) rs

theorem gnomadRecordRows_none_emits (nsamples : Nat) (u : Nat → ℚ) (count : Nat)
    (r : GnomadRecord) (h : gnomadRecordRows nsamples u count r = .ok none) :
    gnomad_emits nsamples u r = false := by
  rw [gnomadRecordRows] at h
  rw [gnomad_emits]
  cases hp : gnomadPresent nsamples u r with
  | error e => simp only [hp] at h; exact Except.noConfusion h
  | ok op =>
    cases op with
    | none => rfl
    | some pres =>
      simp only [hp] at h
      cases halt : r.ALT.head? with
      | none => simp only [halt] at h; exact Except.noConfusion h
      | some alt =>
        simp only [halt] at h
        exact Option.noConfusion (Except.ok.inj h)

theorem gnomadRecordRows_some_emits (nsamples : Nat) (u : Nat → ℚ) (count : Nat)
    (r : GnomadRecord) (rows : Tbls GtRowN)
    (h : gnomadRecordRows nsamples u count r = .ok (some rows)) :
    gnomad_emits nsamples u r = true := by
  obtain ⟨-, -, pres, hp, -⟩ := gnomadRecordRows_shape nsamples u count r rows h
  rw [gnomad_emits, hp]

/-- The final counter is the initial counter plus the number of emitted
records. -/
theorem gnomadRowsFrom_count (nsamples : Nat) (u : Nat → Nat → ℚ) :
    ∀ (rs : List GnomadRecord) (nrec count : Nat) (rows : Tbls GtRowN) (cfin : Nat),
      gnomadRowsFrom nsamples u nrec count rs = .ok (rows, cfin) →
      cfin = count + emits_count nsamples u nrec rs := by
  intro rs
  induction rs with
  | nil =>
    intro nrec count rows cfin h
    rw [gnomadRowsFrom] at h
    cases h
    simp [emits_count]
  | cons r rs ih =>
    intro nrec count rows cfin h
    rw [gnomadRowsFrom] at h
    cases hrr : gnomadRecordRows nsamples (u nrec) count r with
    | error e => simp only [hrr] at h; exact Except.noConfusion h
    | ok op =>
      cases op with
      | none =>
        simp only [hrr] at h
        rw [emits_count, gnomadRecordRows_none_emits nsamples (u nrec) count r hrr]
        have := ih (nrec + 1) count rows cfin h
        simp only [Bool.false_eq_true, if_false]
        omega
      | some rrows =>
        simp only [hrr] at h
        cases hrest : gnomadRowsFrom nsamples u (nrec + 1) (count + 1) rs with
        | error e => simp only [hrest] at h; exact Except.noConfusion h
        | ok pr =>
          obtain ⟨rest, cfin2⟩ := pr
          simp only [hrest] at h
          cases h
          rw [emits_count, gnomadRecordRows_some_emits nsamples (u nrec) count r rrows hrr]
          have := ih (nrec + 1) (count + 1) rest cfin hrest
          simp only [if_true]
          omega

/-! ## Properties of the Hardy-Weinberg sampler -/

theorem choice3_mem (p0 p1 u : ℚ) :
    choice3 p0 p1 u = 0 ∨ choice3 p0 p1 u = 1 ∨ choice3 p0 p1 u = 3 := by
  rw [choice3]
  by_cases h1 : u < p0
  · rw [if_pos h1]; exact Or.inl rfl
  · rw [if_neg h1]
    by_cases h2 : u < p0 + p1
    · rw [if_pos h2]; exact Or.inr (Or.inl rfl)
    · rw [if_neg h2]; exact Or.inr (Or.inr rfl)

theorem np_random_choice_ok (n : Nat) (p0 p1 p2 : ℚ) (u : Nat → ℚ) (gts : List Nat)
    (h : np_random_choice n p0 p1 p2 u = .ok gts) :
    gts.length = n ∧ ∀ g ∈ gts, g = 0 ∨ g = 1 ∨ g = 3 := by
  rw [np_random_choice] at h
  by_cases hneg : p0 < 0 ∨ p1 < 0 ∨ p2 < 0
  · rw [if_pos hneg] at h; exact Except.noConfusion h
  · rw [if_neg hneg] at h
    by_cases hsum : ¬ p0 + p1 + p2 = 1
    · rw [if_pos hsum] at h; exact Except.noConfusion h
    · rw [if_neg hsum] at h
      cases h
      refine ⟨by simp, ?_⟩
      intro g hg
      simp only [List.mem_map] at hg
      obtain ⟨i, -, hgi⟩ := hg
      rw [← hgi]
      exact choice3_mem p0 p1 (u i)

theorem present_from_mem :
    ∀ (gs : List Nat) (i : Nat) (pr : Nat × Nat), pr ∈ present_from i gs →
      0 < pr.2 ∧ pr.2 ∈ gs ∧ i ≤ pr.1 ∧ pr.1 < i + gs.length := by
  intro gs
  induction gs with
  | nil => intro i pr h; simp [present_from] at h
  | cons g gs ih =>
    intro i pr h
    rw [present_from] at h
    by_cases hg : 0 < g
    · rw [if_pos hg] at h
      rcases List.mem_cons.mp h with h1 | h2
      · subst h1
        refine ⟨hg, by simp, le_refl _, ?_⟩
        show i < i + (g :: gs).length
        simp only [List.length_cons]
        omega
      · obtain ⟨a, b, hc, d⟩ := ih (i + 1) pr h2
        refine ⟨a, by simp [b], by omega, ?_⟩
        simp only [List.length_cons]
        omega
    · rw [if_neg hg] at h
      obtain ⟨a, b, hc, d⟩ := ih (i + 1) pr h
      refine ⟨a, by simp [b], by omega, ?_⟩
      simp only [List.length_cons]
      omega

/-- A present pair produced by the synthetic sampler has a genotype code in
{1, 3} and a sample index below the sample count. -/
theorem gnomadPresent_some (nsamples : Nat) (u : Nat → ℚ) (r : GnomadRecord)
    (pres : List (Nat × Nat)) (h : gnomadPresent nsamples u r = .ok (some pres)) :
    ∀ pr ∈ pres, (pr.2 = 1 ∨ pr.2 = 3) ∧ pr.1 < nsamples := by
  rw [gnomadPresent] at h
  by_cases haf : afTruthy r.AF = false
  · rw [if_pos haf] at h
    exact Option.noConfusion (Except.ok.inj h)
  · rw [if_neg haf] at h
    cases hg : gnomad_sample_gts nsamples (r.AF.getD 0) u with
    | error e => simp only [hg] at h; exact Except.noConfusion h
    | ok gts =>
      simp only [hg] at h
      by_cases hlen : (present_from 0 gts).length = 0
      · rw [if_pos hlen] at h
        exact Option.noConfusion (Except.ok.inj h)
      · rw [if_neg hlen] at h
        cases h
        intro pr hpr
        obtain ⟨hpos, hmem, -, hlt⟩ := present_from_mem gts 0 pr hpr
        obtain ⟨hlength, hvals⟩ := np_random_choice_ok nsamples _ _ _ u gts hg
        constructor
        · rcases hvals pr.2 hmem with h0 | h1 | h3
          · omega
          · exact Or.inl h1
          · exact Or.inr h3
        · omega

/-- Every genotype-call row of the synthetic reference stream has genotype
code 1 or 3 and a callset id below the sample count. -/
theorem gnomadRowsFrom_gts (nsamples : Nat) (u : Nat → Nat → ℚ) :
    ∀ (rs : List GnomadRecord) (nrec count : Nat) (rows : Tbls GtRowN) (cfin : Nat),
      gnomadRowsFrom nsamples u nrec count rs = .ok (rows, cfin) →
      ∀ g ∈ rows.gts, (g.genotype = 1 ∨ g.genotype = 3) ∧ g.callsetId < nsamples := by
  intro rs
  induction rs with
  | nil =>
    intro nrec count rows cfin h
    rw [gnomadRowsFrom] at h
    cases h
    intro g hg
    simp [empty_tables] at hg
  | cons r rs ih =>
    intro nrec count rows cfin h
    rw [gnomadRowsFrom] at h
    cases hrr : gnomadRecordRows nsamples (u nrec) count r with
    | error e => simp only [hrr] at h; exact Except.noConfusion h
    | ok op =>
      cases op with
      | none =>
        simp only [hrr] at h
        exact ih (nrec + 1) count rows cfin h
      | some rrows =>
        simp only [hrr] at h
        cases hrest : gnomadRowsFrom nsamples u (nrec + 1) (count + 1) rs with
        | error e => simp only [hrest] at h; exact Except.noConfusion h
        | ok pr =>
          obtain ⟨rest, cfin2⟩ := pr
          simp only [hrest] at h
          cases h
          intro g hgmem
          simp only [append3, List.mem_append] at hgmem
          rcases hgmem with hg1 | hg2
          · obtain ⟨-, -, pres, hp, hgts⟩ :=
              gnomadRecordRows_shape nsamples (u nrec) count r rrows hrr
            rw [hgts] at hg1
            simp only [List.mem_map] at hg1
            obtain ⟨prr, hprr, hgr⟩ := hg1
            obtain ⟨hval, hidx⟩ := gnomadPresent_some nsamples (u nrec) r pres hp prr hprr
            rw [← hgr]
            exact ⟨hval, hidx⟩
          · exact ih (nrec + 1) (count + 1) rest cfin hrest g hg2

theorem gnomad_sample_gts_out_of_range (n : Nat) (q : ℚ) (u : Nat → ℚ)
    (hq : q < 0 ∨ 1 < q) : gnomad_sample_gts n q u = .error errNegProb := by
  rw [gnomad_sample_gts, np_random_choice, if_pos]
  refine Or.inr (Or.inl ?_)
  rcases hq with h | h
  · have h2 : (0 : ℚ) < 2 * (1 - q) := by linarith
    exact mul_neg_of_pos_of_neg h2 h
  · have h2 : 2 * ((1 : ℚ) - q) < 0 := by linarith
    have h3 : (0 : ℚ) < q := by linarith
    exact mul_neg_of_neg_of_pos h2 h3

theorem gnomad_sample_gts_zero (n : Nat) (u : Nat → ℚ) (hu : ∀ i, u i < 1) :
    gnomad_sample_gts n 0 u = .ok (List.replicate n 0) := by
  have h1 : ((1 : ℚ) - 0) * ((1 : ℚ) - 0) = 1 := by norm_num
  have h2 : (2 : ℚ) * ((1 : ℚ) - 0) * 0 = 0 := by norm_num
  have h3 : ((0 : ℚ) * 0) = 0 := by norm_num
  rw [gnomad_sample_gts, h1, h2, h3, np_random_choice]
  rw [if_neg (by norm_num), if_neg (by norm_num)]
  congr 1
  rw [List.eq_replicate_iff]
  refine ⟨by simp, ?_⟩
  intro b hb
  simp only [List.mem_map] at hb
  obtain ⟨i, -, hbi⟩ := hb
  rw [← hbi, choice3, if_pos (hu i)]

theorem gnomad_sample_gts_one (n : Nat) (u : Nat → ℚ) (hu : ∀ i, 0 ≤ u i) :
    gnomad_sample_gts n 1 u = .ok (List.replicate n 3) := by
  have h1 : ((1 : ℚ) - 1) * ((1 : ℚ) - 1) = 0 := by norm_num
  have h2 : (2 : ℚ) * ((1 : ℚ) - 1) * 1 = 0 := by norm_num
  have h3 : ((1 : ℚ) * 1) = 1 := by norm_num
  rw [gnomad_sample_gts, h1, h2, h3, np_random_choice]
  rw [if_neg (by norm_num), if_neg (by norm_num)]
  congr 1
  rw [List.eq_replicate_iff]
  refine ⟨by simp, ?_⟩
  intro b hb
  simp only [List.mem_map] at hb
  obtain ⟨i, -, hbi⟩ := hb
  rw [← hbi, choice3]
  rw [if_neg (not_lt.mpr (hu i)), if_neg (by simpa using not_lt.mpr (hu i))]

theorem present_from_replicate_zero :
    ∀ (m i : Nat), present_from i (List.replicate m 0) = [] := by
  intro m
  induction m with
  | zero => intro i; rfl
  | succ m ih =>
    intro i
    rw [List.replicate_succ, present_from, if_neg (by omega)]
    exact ih (i + 1)

theorem present_from_replicate_three :
    ∀ (m i : Nat),
      present_from i (List.replicate m 3) = (List.range' i m).map (fun k => (k, 3)) := by
  intro m
  induction m with
  | zero => intro i; rfl
  | succ m ih =>
    intro i
    rw [List.replicate_succ, present_from, if_pos (by omega), ih (i + 1),
      List.range'_succ, List.map_cons]

theorem gnomadPresent_af_zero (n : Nat) (u1 : Nat → ℚ) (r : GnomadRecord)
    (haf : r.AF = some 0) : gnomadPresent n u1 r = .ok none := by
  rw [gnomadPresent, haf, if_pos (by decide : afTruthy (some (0 : ℚ)) = false)]

theorem gnomadRecordRows_af_zero (n : Nat) (u1 : Nat → ℚ) (count : Nat) (r : GnomadRecord)
    (haf : r.AF = some 0) : gnomadRecordRows n u1 count r = .ok none := by
  rw [gnomadRecordRows]
  simp only [gnomadPresent_af_zero n u1 r haf]

theorem gnomadPresent_af_one (n : Nat) (u1 : Nat → ℚ) (r : GnomadRecord)
    (hu : ∀ i, 0 ≤ u1 i) (haf : r.AF = some 1) (hn : 0 < n) :
    gnomadPresent n u1 r = .ok (some ((List.range' 0 n).map (fun k => (k, 3)))) := by
  rw [gnomadPresent, haf]
  rw [if_neg (by decide : ¬ afTruthy (some (1 : ℚ)) = false)]
  simp only [Option.getD_some, gnomad_sample_gts_one n u1 hu]
  rw [present_from_replicate_three n 0]
  rw [if_neg (by simp [List.length_range']; omega)]

theorem gnomadRecordRows_af_one (n : Nat) (u1 : Nat → ℚ) (count : Nat) (r : GnomadRecord)
    (alt : String) (alts : List String) (hu : ∀ i, 0 ≤ u1 i) (haf : r.AF = some 1)
    (halt : r.ALT = alt :: alts) (hn : 0 < n) :
    gnomadRecordRows n u1 count r = .ok (some
      ⟨[⟨((count + 1 : Nat) : Int), r.CHROM, r.POS, r.REF, alt⟩], [],
        (List.range' 0 n).map (fun i => ⟨((count + 1 : Nat) : Int), i, 3⟩)⟩) := by
  rw [gnomadRecordRows]
  simp only [gnomadPresent_af_one n u1 r hu haf hn, halt, List.head?_cons]
  simp [List.map_map]

theorem gnomadPresent_out_of_range (n : Nat) (q : ℚ) (u1 : Nat → ℚ) (r : GnomadRecord)
    (haf : r.AF = some q) (hq : q < 0 ∨ 1 < q) :
    gnomadPresent n u1 r = .error errNegProb := by
  have hne : ¬ q = 0 := by
    rcases hq with h | h
    · intro h0; rw [h0] at h; norm_num at h
    · intro h0; rw [h0] at h; norm_num at h
  rw [gnomadPresent, haf]
  rw [if_neg (by simp [afTruthy, hne])]
  simp only [Option.getD_some, gnomad_sample_gts_out_of_range n q u1 hq]

theorem gnomadRecordRows_out_of_range (n : Nat) (q : ℚ) (u1 : Nat → ℚ) (count : Nat)
    (r : GnomadRecord) (haf : r.AF = some q) (hq : q < 0 ∨ 1 < q) :
    gnomadRecordRows n u1 count r = .error errNegProb := by
  rw [gnomadRecordRows]
  simp only [gnomadPresent_out_of_range n q u1 r haf hq]

/-! ## Small support lemmas for the claim statements -/

theorem artifactOf_getD {α : Type} (l : List α) :
    (artifactOf (!l.isEmpty) l).getD [] = l := by
  cases l with
  | nil => rfl
  | cons a t => rfl

theorem pairwise_lt_range'_cast :
    ∀ (len s : Nat), ((List.range' s len).map (fun (k : Nat) => (k : Int))).Pairwise (· < ·) := by
  intro len
  induction len with
  | zero => intro s; simp
  | succ m ih =>
    intro s
    rw [List.range'_succ, List.map_cons]
    refine List.Pairwise.cons ?_ (ih (s + 1))
    intro b hb
    simp only [List.mem_map] at hb
    obtain ⟨k, hk, hbk⟩ := hb
    have hks : s + 1 ≤ k ∧ k < s + 1 + m := List.mem_range'_1.mp hk
    rw [← hbk]
    exact_mod_cast by omega

theorem filter_length_by_proj {β : Type} (pid : β → Nat) :
    ∀ (l : List β) (k : Nat),
      (l.filter (fun x => decide (pid x = k))).length =
        ((l.map pid).filter (fun i => decide (i = k))).length := by
  intro l k
  induction l with
  | nil => rfl
  | cons x l ih =>
    simp only [List.map_cons, List.filter_cons]
    by_cases h : pid x = k
    · simp [h, ih]
    · simp [h, ih]

theorem filter_range'_eq_count :
    ∀ (len s k : Nat), s ≤ k → k < s + len →
      ((List.range' s len).filter (fun i => decide (i = k))).length = 1 := by
  intro len
  induction len with
  | zero => intro s k h1 h2; omega
  | succ m ih =>
    intro s k h1 h2
    rw [List.range'_succ]
    simp only [List.filter_cons]
    by_cases hs : s = k
    · subst hs
      have h0 : ((List.range' (s + 1) m).filter (fun i => decide (i = s))).length = 0 := by
        rw [List.length_eq_zero, List.filter_eq_nil]
        intro a ha
        have hsa : s + 1 ≤ a ∧ a < s + 1 + m := List.mem_range'_1.mp ha
        simp only [decide_eq_true_eq]
        omega
      simp [h0]
    · have hlt : k < (s + 1) + m := by omega
      have h1b : s + 1 ≤ k := by omega
      simp [hs, ih (s + 1) k h1b hlt]

theorem write_callset_ids (samples : List String) (dataset : String) (consent : Bool) :
    (write_callset_table samples dataset consent).map (fun cr => cr.callsetId) =
      List.range samples.length := by
  rw [write_callset_table, List.map_map]
  exact List.map_id _

theorem write_sample_rows_ids (dataset : String) (eth birth : Nat → String) (consent : Bool) :
    ∀ (ss : List String) (i : Nat),
      (write_sample_rows dataset eth birth consent i ss).map (fun sr => sr.sampleId) =
        List.range' i ss.length := by
  intro ss
  induction ss with
  | nil => intro i; rfl
  | cons s ss ih =>
    intro i
    rw [write_sample_rows, List.map_cons, ih (i + 1), List.length_cons, List.range'_succ]

theorem write_sample_ids (samples : List String) (dataset : String)
    (eth birth : Nat → String) (consent : Bool) :
    (write_sample_table samples dataset eth birth consent).map (fun sr => sr.sampleId) =
      List.range samples.length := by
  rw [write_sample_table, write_sample_rows_ids, List.range_eq_range']

theorem write_callset_filter (samples : List String) (dataset : String) (consent : Bool)
    (k : Nat) (hk : k < samples.length) :
    ((write_callset_table samples dataset consent).filter
      (fun cr => decide (cr.callsetId = k))).length = 1 := by
  have h := filter_length_by_proj (fun cr : CallsetRow => cr.callsetId)
    (write_callset_table samples dataset consent) k
  rw [write_callset_ids, List.range_eq_range'] at h
  rw [h]
  exact filter_range'_eq_count samples.length 0 k (by omega) (by omega)

theorem write_sample_filter (samples : List String) (dataset : String)
    (eth birth : Nat → String) (consent : Bool) (k : Nat) (hk : k < samples.length) :
    ((write_sample_table samples dataset eth birth consent).filter
      (fun sr => decide (sr.sampleId = k))).length = 1 := by
  have h := filter_length_by_proj (fun sr : SampleRow => sr.sampleId)
    (write_sample_table samples dataset eth birth consent) k
  rw [write_sample_ids, List.range_eq_range'] at h
  rw [h]
  exact filter_range'_eq_count samples.length 0 k (by omega) (by omega)

/-- Decidable equality of `Except` values, used to evaluate concrete runs. -/
instance exceptDecEq {ε α : Type} [DecidableEq ε] [DecidableEq α] :
    DecidableEq (Except ε α) := fun a b =>
  match a, b with
  | .error e1, .error e2 =>
    match decEq e1 e2 with
    | isTrue h => isTrue (by rw [h])
    | isFalse h => isFalse (by intro hc; cases hc; exact h rfl)
  | .ok v1, .ok v2 =>
    match decEq v1 v2 with
    | isTrue h => isTrue (by rw [h])
    | isFalse h => isFalse (by intro hc; cases hc; exact h rfl)
  | .error e1, .ok v2 => isFalse (by intro hc; cases hc)
  | .ok v1, .error e2 => isFalse (by intro hc; cases hc)

/-- Membership in a possibly-missing artifact implies membership in its row
list. -/
theorem mem_artifact_getD {α : Type} {b : Bool} {l : List α} {x : α}
    (hx : x ∈ (artifactOf b l).getD []) : x ∈ l := by
  cases b
  · simp [artifactOf] at hx
  · simpa [artifactOf] using hx

/-! ## Concrete fixtures used by the claim theorems and witnesses -/

def chrom1 : String := "1"

def refA : String := "A"

def altT : String := "T"

def altG : String := "G"

def s0name : String := "s0"

def s1name : String := "s1"

def s2name : String := "s2"

def dsName : String := "d1"

def ethNA : String := "NA"

def ethOracle : Nat → String := fun _ => ethNA

def birthOracle : Nat → String := fun _ => ethNA

def gt01 : String := "0/1"

def gt11 : String := "1/1"

def gt01p : String := "0|1"

/-- The record of the spec's worked example: chromosome 1, position 12345,
reference A, alternates T and G, three unphased diploid genotypes
(0,0), (0,1), (1,1), whose decoder genotype-type codes are 0 = HOM_REF,
1 = HET, 3 = HOM_ALT.  The example says nothing about the gene-symbol
annotation, so the record carries the geneSymbol INFO key with the falsy
empty-string value (no annotation row is emitted); a record lacking the
key entirely would instead abort the run with a KeyError. -/
def c4_record : VcfRecord :=
  ⟨chrom1, 12345, refA, [altT, altG], some emptyStr, [0, 1, 3],
   [([0, 0], false), ([0, 1], false), ([1, 1], false)]⟩

def c4_samples : List String := [s0name, s1name, s2name]

/-- A record whose only sample is homozygous-reference: no informative
call at all.  It carries the geneSymbol INFO key (falsy empty value), so
the real code processes it without error. -/
def c1_record : VcfRecord :=
  ⟨chrom1, 5, refA, [altT], some emptyStr, [0], [([0, 0], false)]⟩

def half : ℚ := 1 / 2

def g1_record : GnomadRecord := ⟨chrom1, 7, refA, [altT], some half⟩

def uHalf : Nat → Nat → ℚ := fun _ _ => half

def g_bad_record : GnomadRecord := ⟨chrom1, 7, refA, [altT], some 2⟩

def g0_record : GnomadRecord := ⟨chrom1, 7, refA, [altT], some 0⟩

def gOne_record : GnomadRecord := ⟨chrom1, 7, refA, [altT], some 1⟩

def uZero : Nat → ℚ := fun _ => 0

def st0g : GnomadState := ⟨0, empty_tables, no_writers, empty_tables⟩

/-- The informative-record count in the claim's sense for the real-ingestion
transform: input records for which at least one sample's genotype-type code
passes the presence test (the odd-code test of the source). -/
def vcf_informative_count (records : List VcfRecord) : Nat :=
  (records.filter (fun r => !(has_calls r.gt_types).isEmpty)).length

/-! ## Claim C1 -/

/-- C1, counterexample: in `vcf_to_parquet.py` a record with no informative
genotype call across all samples still produces one variants row (and
consumes ordinal 0), so the variants row count (1) differs from the
informative-record count (0).  The record carries the geneSymbol INFO key
with a falsy value, so the real code processes it to completion without
raising. -/
theorem c1_counterexample :
    (tables_vcf [c1_record] [s0name] dsName ethOracle birthOracle 500).map
      (fun run => (run.variantsOut.getD []).length) = .ok 1 ∧
    vcf_informative_count [c1_record] = 0 := by
  constructor
  · rfl
  · rfl

/-- C1, amended: in the synthetic transform (`parquet_from_gnomad.py`) the
variants row count equals the number of emitting records (truthy allele
frequency and at least one present sampled call) and the identifiers are the
dense sequence 1..k, so skipped records consume no identifier; in the
real-ingestion transform (`vcf_to_parquet.py`) every input record yields
exactly one variants row whose identifier is its 0-based input ordinal,
whether or not any call is informative. -/
theorem c1_amended (records : List VcfRecord) (samples : List String) (dataset : String)
    (eth birth : Nat → String) (c : Nat) (runv : VcfRun)
    (rg : List GnomadRecord) (nsamples : Nat) (u : Nat → Nat → ℚ) (cg : Nat)
    (rung : GnomadRun) (hc : 0 < c) (hcg : 0 < cg)
    (hv : tables_vcf records samples dataset eth birth c = .ok runv)
    (hg : tables_gnomad rg nsamples u cg = .ok rung) :
    (runv.variantsOut.getD []).map (fun v => v.vId) =
      (List.range' 0 records.length).map (fun (k : Nat) => (k : Int)) ∧
    (rung.variantsOut.getD []).length = emits_count nsamples u 0 rg ∧
    (rung.variantsOut.getD []).map (fun v => v.vId) =
      (List.range' 1 ((rung.variantsOut.getD []).length)).map
        (fun (k : Nat) => (k : Int)) := by
  rw [tables_vcf_eq_ref] at hv
  rw [tables_gnomad_eq_ref] at hg
  cases hrows : vcfRowsFrom samples 0 records with
  | error e => rw [hrows] at hv; exact absurd hv (by simp)
  | ok rows =>
    simp only [hrows] at hv
    have hrunv := Except.ok.inj hv
    subst hrunv
    cases hrowsg : gnomadRowsFrom nsamples u 0 0 rg with
    | error e => rw [hrowsg] at hg; exact absurd hg (by simp)
    | ok prg =>
      obtain ⟨rowsg, cfin⟩ := prg
      simp only [hrowsg] at hg
      have hrung := Except.ok.inj hg
      subst hrung
      simp only [artifactOf_getD]
      obtain ⟨-, hmapg⟩ := gnomadRowsFrom_vIds nsamples u rg 0 0 rowsg cfin hrowsg
      have hcount := gnomadRowsFrom_count nsamples u rg 0 0 rowsg cfin hrowsg
      have hlen : rowsg.variants.length = cfin := by
        have := congrArg List.length hmapg
        simpa [List.length_range'] using this
      refine ⟨vcfRowsFrom_vIds samples records 0 rows hrows, ?_, ?_⟩
      · rw [hlen, hcount]
        omega
      · rw [hlen]
        simpa using hmapg

/-- Concrete evaluation of the sampler on the witness record: with
`q = 1/2` the probabilities are (1/4, 1/2, 1/4) and the draw 1/2 lands in
the heterozygous class. -/
theorem g1_sample : gnomad_sample_gts 1 half (uHalf 0) = .ok [1] := by
  rw [gnomad_sample_gts, np_random_choice]
  rw [if_neg (by norm_num [half]), if_neg (by norm_num [half])]
  congr 1
  show [choice3 ((1 - half) * (1 - half)) (2 * (1 - half) * half) (uHalf 0 0)] = [1]
  rw [choice3, if_neg (by norm_num [half, uHalf]), if_pos (by norm_num [half, uHalf])]

theorem g1_present : gnomadPresent 1 (uHalf 0) g1_record = .ok (some [(0, 1)]) := by
  rw [gnomadPresent]
  rw [if_neg (by norm_num [afTruthy, g1_record, half])]
  have hgetd : g1_record.AF.getD 0 = half := rfl
  rw [hgetd]
  simp only [g1_sample]
  rfl

theorem g1_rows : gnomadRecordRows 1 (uHalf 0) 0 g1_record =
    .ok (some ⟨[⟨1, chrom1, 7, refA, altT⟩], [], [⟨1, 0, 1⟩]⟩) := by
  rw [gnomadRecordRows]
  simp only [g1_present]
  rfl

/-- Concrete evaluation of the whole synthetic run used by the witnesses. -/
theorem g1_run : tables_gnomad [g1_record] 1 uHalf 500 =
    .ok ⟨some [⟨1, chrom1, 7, refA, altT⟩], some [], some [⟨1, 0, 1⟩]⟩ := by
  rw [tables_gnomad_eq_ref]
  rw [gnomadRowsFrom_cons_some 1 uHalf 0 0 g1_record [] _ g1_rows]
  rfl

/-- C1, witness for the amended theorem. -/
theorem c1_witness :
    (0 : Nat) < 500 ∧
    tables_vcf [c1_record] [s0name] dsName ethOracle birthOracle 500 =
      .ok ⟨write_callset_table [s0name] dsName true,
        write_sample_table [s0name] dsName ethOracle birthOracle true,
        some [⟨0, chrom1, 5, refA, altT⟩], some [], some []⟩ ∧
    tables_gnomad [g1_record] 1 uHalf 500 =
      .ok ⟨some [⟨1, chrom1, 7, refA, altT⟩], some [], some [⟨1, 0, 1⟩]⟩ ∧
    (((⟨some [⟨1, chrom1, 7, refA, altT⟩], some [], some [⟨1, 0, 1⟩]⟩ :
        GnomadRun).variantsOut.getD []).length = emits_count 1 uHalf 0 [g1_record]) :=
  ⟨by decide, by decide, g1_run,
    (c1_amended [c1_record] [s0name] dsName ethOracle birthOracle 500
      ⟨write_callset_table [s0name] dsName true,
        write_sample_table [s0name] dsName ethOracle birthOracle true,
        some [⟨0, chrom1, 5, refA, altT⟩], some [], some []⟩
      [g1_record] 1 uHalf 500
      ⟨some [⟨1, chrom1, 7, refA, altT⟩], some [], some [⟨1, 0, 1⟩]⟩
      (by decide) (by decide) (by decide) g1_run).2.1⟩

/-! ## Claim C2 -/

/-- C2, counterexample: a run over an empty record stream creates no
variants parquet artifact at all (the writer is only created at the first
flush, and no flush ever happens), so it is not the case that every table's
artifact is produced with zero rows. -/
theorem c2_counterexample :
    (tables_vcf [] [s0name] dsName ethOracle birthOracle 500).map
      (fun run => run.variantsOut) = .ok none := by
  rfl

/-- C2, amended: on an empty input stream the eagerly written callsets and
samples artifacts are produced (one row per sample name, fixed schema), but
the lazily created variants, annotations, and genotype-call artifacts are
not produced at all, in either transform. -/
theorem c2_amended (samples : List String) (dataset : String) (eth birth : Nat → String)
    (c : Nat) (nsamples : Nat) (u : Nat → Nat → ℚ) (cg : Nat) :
    tables_vcf [] samples dataset eth birth c =
      .ok ⟨write_callset_table samples dataset true,
        write_sample_table samples dataset eth birth true, none, none, none⟩ ∧
    (write_callset_table samples dataset true).length = samples.length ∧
    (write_sample_table samples dataset eth birth true).length = samples.length ∧
    tables_gnomad [] nsamples u cg = .ok ⟨none, none, none⟩ := by
  refine ⟨rfl, ?_, ?_, rfl⟩
  · simp [write_callset_table]
  · have h := congrArg List.length (write_sample_ids samples dataset eth birth true)
    simpa using h

/-! ## Claim C3 -/

/-- C3: the chunk size is invisible in the produced artifacts — for any two
positive chunk sizes (in particular chunk size 1 versus the total variant
count) the two runs produce identical artifacts, row content, and row order,
in both transforms. -/
theorem c3_chunking_invisible (records : List VcfRecord) (samples : List String)
    (dataset : String) (eth birth : Nat → String)
    (rg : List GnomadRecord) (nsamples : Nat) (u : Nat → Nat → ℚ)
    (c1 c2 : Nat) (h1 : 0 < c1) (h2 : 0 < c2) :
    tables_vcf records samples dataset eth birth c1 =
      tables_vcf records samples dataset eth birth c2 ∧
    tables_gnomad rg nsamples u c1 = tables_gnomad rg nsamples u c2 := by
  constructor
  · rw [tables_vcf_eq_ref, tables_vcf_eq_ref]
  · rw [tables_gnomad_eq_ref, tables_gnomad_eq_ref]

/-- C3, witness: chunk size 1 versus chunk size 2 (the total record count)
on a concrete two-record input, and on a concrete synthetic input. -/
theorem c3_witness :
    (0 : Nat) < 1 ∧ (0 : Nat) < 2 ∧
    (tables_vcf [c4_record, c1_record] c4_samples dsName ethOracle birthOracle 1 =
      tables_vcf [c4_record, c1_record] c4_samples dsName ethOracle birthOracle 2 ∧
     tables_gnomad [g1_record] 1 uHalf 1 = tables_gnomad [g1_record] 1 uHalf 2) :=
  ⟨by decide, by decide,
    c3_chunking_invisible [c4_record, c1_record] c4_samples dsName ethOracle birthOracle
      [g1_record] 1 uHalf 1 2 (by decide) (by decide)⟩

/-! ## Claim C4 -/

/-- C4: the spec's worked example.  One record (chromosome 1, position
12345, reference A, alternates T and G) over three samples with unphased
genotypes (0,0), (0,1), (1,1) yields exactly one variants row whose
alternate allele is T (the second alternate G is dropped), no annotation
rows, and exactly two genotype-call rows, for samples 1 and 2 only (sample
0 is homozygous-reference and omitted), with genotype strings 0/1 and 1/1;
the same genotype phased instead joins with the pipe symbol.  The example
leaves the gene-symbol annotation unspecified; the record carries the
geneSymbol INFO key with a falsy value, the reading under which the source
completes (a record lacking the key would abort with a KeyError, see C6). -/
theorem c4_example_scenario :
    (tables_vcf [c4_record] c4_samples dsName ethOracle birthOracle 500).map
      (fun run => (run.variantsOut, run.annotationsOut, run.gtsOut)) =
      .ok (some [⟨0, chrom1, 12345, refA, altT⟩], some [],
        some [⟨0, 1, gt01⟩, ⟨0, 2, gt11⟩]) ∧
    gt_string ([0, 1], false) = gt01 ∧
    gt_string ([0, 1], true) = gt01p := by
  refine ⟨by decide, rfl, rfl⟩

/-! ## Claim C5 -/

/-- C5: in synthetic mode an allele frequency outside [0, 1] is fatal: the
probability vector handed to the sampler contains a negative entry, the
sampler's validation rejects it before any draw, decoding that record
returns the fatal error, and a run that reaches such a record aborts with
that error. -/
theorem c5_out_of_range_af (q : ℚ) (r : GnomadRecord) (rs : List GnomadRecord)
    (nsamples count cg : Nat) (u1 : Nat → ℚ) (u : Nat → Nat → ℚ)
    (haf : r.AF = some q) (hq : q < 0 ∨ 1 < q) :
    gnomad_sample_gts nsamples q u1 = .error errNegProb ∧
    gnomadRecordRows nsamples u1 count r = .error errNegProb ∧
    tables_gnomad (r :: rs) nsamples u cg = .error errNegProb := by
  refine ⟨gnomad_sample_gts_out_of_range nsamples q u1 hq,
    gnomadRecordRows_out_of_range nsamples q u1 count r haf hq, ?_⟩
  rw [tables_gnomad_eq_ref]
  simp only [gnomadRowsFrom_cons_err nsamples u 0 0 r rs errNegProb
    (gnomadRecordRows_out_of_range nsamples q (u 0) 0 r haf hq)]

/-- C5, witness at the out-of-range frequency q = 2. -/
theorem c5_witness :
    g_bad_record.AF = some 2 ∧ ((2 : ℚ) < 0 ∨ 1 < (2 : ℚ)) ∧
    (gnomad_sample_gts 1 2 (uHalf 0) = .error errNegProb ∧
     gnomadRecordRows 1 (uHalf 0) 0 g_bad_record = .error errNegProb ∧
     tables_gnomad [g_bad_record] 1 uHalf 500 = .error errNegProb) :=
  ⟨rfl, by norm_num,
    c5_out_of_range_af 2 g_bad_record [] 1 0 500 (uHalf 0) uHalf rfl (by norm_num)⟩

/-! ## Claim C7 -/

/-- C7: the Hardy-Weinberg edge frequencies.  With q = 0 every draw lands in
the homozygous-reference class, no call is present, and the record is
skipped entirely (the loop step leaves the state unchanged, adding no rows
to any table — in the source the q = 0 record is already skipped by the
falsy-AF test before sampling).  With q = 1 every one of the n draws lands
in the homozygous-alternate class, so for n > 0 the record is emitted with
one variants row and n genotype-call rows, one per sample, each with the
homozygous-alternate code 3. -/
theorem c7_hw_edge_cases (n : Nat) (u0 u1f : Nat → ℚ) (r0 r1 : GnomadRecord)
    (st : GnomadState) (c count : Nat) (alt : String) (alts : List String)
    (h0 : ∀ i, u0 i < 1) (h1 : ∀ i, 0 ≤ u1f i)
    (haf0 : r0.AF = some 0) (haf1 : r1.AF = some 1)
    (halt : r1.ALT = alt :: alts) (hn : 0 < n) :
    gnomad_sample_gts n 0 u0 = .ok (List.replicate n 0) ∧
    present_from 0 (List.replicate n 0) = [] ∧
    gnomadStep n c u0 r0 st = .ok st ∧
    gnomad_sample_gts n 1 u1f = .ok (List.replicate n 3) ∧
    gnomadRecordRows n u1f count r1 = .ok (some
      ⟨[⟨((count + 1 : Nat) : Int), r1.CHROM, r1.POS, r1.REF, alt⟩], [],
        (List.range' 0 n).map (fun i => ⟨((count + 1 : Nat) : Int), i, 3⟩)⟩) ∧
    ((List.range' 0 n).map
      (fun i => (⟨((count + 1 : Nat) : Int), i, 3⟩ : GtRowN))).length = n := by
  refine ⟨gnomad_sample_gts_zero n u0 h0, present_from_replicate_zero n 0,
    gnomadStep_none n c u0 r0 st (gnomadRecordRows_af_zero n u0 st.count r0 haf0),
    gnomad_sample_gts_one n u1f h1,
    gnomadRecordRows_af_one n u1f count r1 alt alts h1 haf1 halt hn,
    by simp [List.length_range']⟩

/-- C7, witness at n = 1 with the all-zero draw oracle. -/
theorem c7_witness :
    (∀ i, uZero i < 1) ∧ (∀ i, 0 ≤ uZero i) ∧
    g0_record.AF = some 0 ∧ gOne_record.AF = some 1 ∧
    gOne_record.ALT = altT :: [] ∧ (0 : Nat) < 1 ∧
    (gnomad_sample_gts 1 0 uZero = .ok (List.replicate 1 0) ∧
     present_from 0 (List.replicate 1 0) = [] ∧
     gnomadStep 1 500 uZero g0_record st0g = .ok st0g ∧
     gnomad_sample_gts 1 1 uZero = .ok (List.replicate 1 3) ∧
     gnomadRecordRows 1 uZero 0 gOne_record = .ok (some
       ⟨[⟨((0 + 1 : Nat) : Int), gOne_record.CHROM, gOne_record.POS, gOne_record.REF,
          altT⟩], [],
         (List.range' 0 1).map (fun i => ⟨((0 + 1 : Nat) : Int), i, 3⟩)⟩) ∧
     ((List.range' 0 1).map
       (fun i => (⟨((0 + 1 : Nat) : Int), i, 3⟩ : GtRowN))).length = 1) :=
  ⟨fun i => by norm_num [uZero], fun i => by norm_num [uZero], rfl, rfl, rfl, by decide,
    c7_hw_edge_cases 1 uZero uZero g0_record gOne_record st0g 500 0 altT []
      (fun i => by norm_num [uZero]) (fun i => by norm_num [uZero]) rfl rfl rfl
      (by decide)⟩

/-! ## Claim C6 -/

/-- A record that carries no gene-symbol annotation at all (the INFO field
lacks the key): the `record.INFO['geneSymbol']` lookup raises `KeyError`
in the source. -/
def c6_record : VcfRecord :=
  ⟨chrom1, 9, refA, [altT], none, [1], [([0, 1], false)]⟩

/-- C6, counterexample: a record carrying no gene-symbol annotation is not
processed normally with zero annotation rows — the INFO lookup raises
`KeyError` and the run aborts fatally, producing none of the streamed
tables. -/
theorem c6_counterexample :
    tables_vcf [c6_record] [s0name] dsName ethOracle birthOracle 500 =
      .error errGeneKey := by
  decide

/-- C6 (amended): for every record of a completed run the `geneSymbol` INFO
value is necessarily present, and the annotations artifact holds exactly one
row with that record's variant ordinal when the value is truthy (non-empty)
and none when it is falsy; every annotation row's vId is the vId of a
variants row (the one emitted for the same record).  A record whose INFO
lacks the key entirely is not skipped: decoding it fails with the fatal
`KeyError` instead. -/
theorem c6_annotations (records : List VcfRecord) (samples : List String) (dataset : String)
    (eth birth : Nat → String) (c : Nat) (run : VcfRun) (hc : 0 < c)
    (h : tables_vcf records samples dataset eth birth c = .ok run) :
    (∀ (k : Nat) (r : VcfRecord) (gsym : String), records.get? k = some r →
      r.geneSymbol = some gsym →
      ((run.annotationsOut.getD []).filter
        (fun a => decide (a.vId = (k : Int)))).length =
        (if geneSymbol_truthy gsym then 1 else 0)) ∧
    (∀ a ∈ run.annotationsOut.getD [],
      ∃ v ∈ run.variantsOut.getD [], v.vId = a.vId) ∧
    (∀ (vid : Nat) (r : VcfRecord) (alt : String) (alts : List String),
      r.geneSymbol = none → r.ALT = alt :: alts →
      vcfRecordRows samples vid r = .error errGeneKey) := by
  have hfatal : ∀ (vid : Nat) (r : VcfRecord) (alt : String) (alts : List String),
      r.geneSymbol = none → r.ALT = alt :: alts →
      vcfRecordRows samples vid r = .error errGeneKey := by
    intro vid r alt alts hgs halt
    rw [vcfRecordRows, halt]
    simp only [List.head?_cons, hgs]
  rw [tables_vcf_eq_ref] at h
  cases hrows : vcfRowsFrom samples 0 records with
  | error e => rw [hrows] at h; exact absurd h (by simp)
  | ok rows =>
    simp only [hrows] at h
    have hrun := Except.ok.inj h
    subst hrun
    have hann := vcfRowsFrom_ann samples records 0 rows hrows
    have hvids := vcfRowsFrom_vIds samples records 0 rows hrows
    by_cases hvnil : rows.variants = []
    · have hlen0 : records.length = 0 := by
        have hc2 := congrArg List.length hvids
        rw [hvnil] at hc2
        simp only [List.length_map, List.length_nil, List.length_range'] at hc2
        omega
      have hrecnil : records = [] := List.length_eq_zero.mp hlen0
      refine ⟨?_, ?_, hfatal⟩
      · intro k r gsym hk hgs
        rw [hrecnil] at hk
        simp at hk
      · intro a ha
        rw [hrecnil] at hrows
        rw [vcfRowsFrom] at hrows
        cases hrows
        simp [artifactOf, empty_tables] at ha
    · have hb : (!rows.variants.isEmpty) = true := bnot_isEmpty_of_ne hvnil
      have hgeta : (artifactOf (!rows.variants.isEmpty) rows.annotations).getD []
          = rows.annotations := by
        rw [hb]
        rfl
      refine ⟨?_, ?_, hfatal⟩
      · intro k r gsym hk hgs
        have hcnt := annListFrom_count records 0 k r gsym hk hgs
        rw [Nat.zero_add] at hcnt
        show (((artifactOf (!rows.variants.isEmpty) rows.annotations).getD []).filter
          (fun a => decide (a.vId = (k : Int)))).length =
          (if geneSymbol_truthy gsym then 1 else 0)
        rw [hgeta, hann]
        exact hcnt
      · intro a ha
        have ha2 : a ∈ rows.annotations := by
          have ha3 : a ∈ (artifactOf (!rows.variants.isEmpty) rows.annotations).getD [] :=
            ha
          rwa [hgeta] at ha3
        rw [hann] at ha2
        obtain ⟨k, hk, hvk⟩ := annListFrom_mem_bound records 0 a ha2
        have hmem : ((k : Nat) : Int) ∈ rows.variants.map (fun v => v.vId) := by
          rw [hvids]
          refine List.mem_map.mpr ⟨k, ?_, rfl⟩
          exact List.mem_range'_1.mpr ⟨by omega, by omega⟩
        obtain ⟨v, hvmem, hvid⟩ := List.mem_map.mp hmem
        show ∃ v ∈ (artifactOf (!rows.variants.isEmpty) rows.variants).getD [],
          v.vId = a.vId
        rw [artifactOf_getD]
        refine ⟨v, hvmem, ?_⟩
        rw [hvid, hvk]
        norm_num

/-- The concrete vcf run used by several witnesses. -/
def w_vcf_run : VcfRun :=
  ⟨write_callset_table c4_samples dsName true,
   write_sample_table c4_samples dsName ethOracle birthOracle true,
   some [⟨0, chrom1, 12345, refA, altT⟩], some [],
   some [⟨0, 1, gt01⟩, ⟨0, 2, gt11⟩]⟩

theorem w_vcf_run_eq :
    tables_vcf [c4_record] c4_samples dsName ethOracle birthOracle 500 = .ok w_vcf_run := by
  decide

/-- The concrete synthetic run used by several witnesses. -/
def w_gnomad_run : GnomadRun :=
  ⟨some [⟨1, chrom1, 7, refA, altT⟩], some [], some [⟨1, 0, 1⟩]⟩

theorem w_gnomad_run_eq : tables_gnomad [g1_record] 1 uHalf 500 = .ok w_gnomad_run :=
  g1_run

/-- C6, witness on the worked-example record, whose gene-symbol value is
present and falsy. -/
theorem c6_witness :
    (0 : Nat) < 500 ∧
    tables_vcf [c4_record] c4_samples dsName ethOracle birthOracle 500 = .ok w_vcf_run ∧
    ((∀ (k : Nat) (r : VcfRecord) (gsym : String), [c4_record].get? k = some r →
      r.geneSymbol = some gsym →
      ((w_vcf_run.annotationsOut.getD []).filter
        (fun a => decide (a.vId = (k : Int)))).length =
        (if geneSymbol_truthy gsym then 1 else 0)) ∧
     (∀ a ∈ w_vcf_run.annotationsOut.getD [],
       ∃ v ∈ w_vcf_run.variantsOut.getD [], v.vId = a.vId) ∧
     (∀ (vid : Nat) (r : VcfRecord) (alt : String) (alts : List String),
       r.geneSymbol = none → r.ALT = alt :: alts →
       vcfRecordRows c4_samples vid r = .error errGeneKey)) :=
  ⟨by decide, w_vcf_run_eq,
    c6_annotations [c4_record] c4_samples dsName ethOracle birthOracle 500 w_vcf_run
      (by decide) w_vcf_run_eq⟩

/-! ## Claim C8 -/

/-- C8: in both transforms the vId column of the variants artifact is
strictly increasing in emission order (hence has no duplicates, and an
identifier is never reused even when later records are skipped). -/
theorem c8_vid_strictly_increasing (records : List VcfRecord) (samples : List String)
    (dataset : String) (eth birth : Nat → String) (c : Nat) (runv : VcfRun)
    (rg : List GnomadRecord) (nsamples : Nat) (u : Nat → Nat → ℚ) (cg : Nat)
    (rung : GnomadRun) (hc : 0 < c) (hcg : 0 < cg)
    (hv : tables_vcf records samples dataset eth birth c = .ok runv)
    (hg : tables_gnomad rg nsamples u cg = .ok rung) :
    List.Pairwise (· < ·) ((runv.variantsOut.getD []).map (fun v => v.vId)) ∧
    List.Pairwise (· < ·) ((rung.variantsOut.getD []).map (fun v => v.vId)) := by
  rw [tables_vcf_eq_ref] at hv
  rw [tables_gnomad_eq_ref] at hg
  cases hrows : vcfRowsFrom samples 0 records with
  | error e => rw [hrows] at hv; exact absurd hv (by simp)
  | ok rows =>
    simp only [hrows] at hv
    have hrv := Except.ok.inj hv
    subst hrv
    cases hrowsg : gnomadRowsFrom nsamples u 0 0 rg with
    | error e => rw [hrowsg] at hg; exact absurd hg (by simp)
    | ok prg =>
      obtain ⟨rowsg, cfin⟩ := prg
      simp only [hrowsg] at hg
      have hrg := Except.ok.inj hg
      subst hrg
      simp only [artifactOf_getD]
      constructor
      · rw [vcfRowsFrom_vIds samples records 0 rows hrows]
        exact pairwise_lt_range'_cast records.length 0
      · rw [(gnomadRowsFrom_vIds nsamples u rg 0 0 rowsg cfin hrowsg).2]
        exact pairwise_lt_range'_cast (cfin - 0) 1

/-- C8, witness. -/
theorem c8_witness :
    (0 : Nat) < 500 ∧
    tables_vcf [c4_record] c4_samples dsName ethOracle birthOracle 500 = .ok w_vcf_run ∧
    tables_gnomad [g1_record] 1 uHalf 500 = .ok w_gnomad_run ∧
    (List.Pairwise (· < ·) ((w_vcf_run.variantsOut.getD []).map (fun v => v.vId)) ∧
     List.Pairwise (· < ·) ((w_gnomad_run.variantsOut.getD []).map (fun v => v.vId))) :=
  ⟨by decide, w_vcf_run_eq, w_gnomad_run_eq,
    c8_vid_strictly_increasing [c4_record] c4_samples dsName ethOracle birthOracle 500
      w_vcf_run [g1_record] 1 uHalf 500 w_gnomad_run (by decide) (by decide)
      w_vcf_run_eq w_gnomad_run_eq⟩

/-! ## Claim C9 -/

/-- C9: the callsets and samples tables assign the identifiers 0..n-1 in
sample-list order, and every callsetId appearing in a genotype-call artifact
lies below n, hence resolves to exactly one callsets row and exactly one
samples row, in both transforms. -/
theorem c9_callset_ids_valid (records : List VcfRecord) (samples : List String)
    (dataset : String) (eth birth : Nat → String) (c : Nat) (runv : VcfRun)
    (rg : List GnomadRecord) (nsamples : Nat) (u : Nat → Nat → ℚ) (cg : Nat)
    (rung : GnomadRun) (hc : 0 < c) (hcg : 0 < cg)
    (hv : tables_vcf records samples dataset eth birth c = .ok runv)
    (hg : tables_gnomad rg nsamples u cg = .ok rung) :
    runv.callsetsOut.map (fun cr => cr.callsetId) = List.range samples.length ∧
    runv.samplesOut.map (fun sr => sr.sampleId) = List.range samples.length ∧
    (∀ g ∈ runv.gtsOut.getD [], g.callsetId < samples.length ∧
      (runv.callsetsOut.filter
        (fun cr => decide (cr.callsetId = g.callsetId))).length = 1 ∧
      (runv.samplesOut.filter
        (fun sr => decide (sr.sampleId = g.callsetId))).length = 1) ∧
    (∀ g ∈ rung.gtsOut.getD [], g.callsetId < nsamples ∧
      ∀ (ss : List String), ss.length = nsamples →
        ((write_callset_table ss dataset true).filter
          (fun cr => decide (cr.callsetId = g.callsetId))).length = 1) := by
  rw [tables_vcf_eq_ref] at hv
  rw [tables_gnomad_eq_ref] at hg
  cases hrows : vcfRowsFrom samples 0 records with
  | error e => rw [hrows] at hv; exact absurd hv (by simp)
  | ok rows =>
    simp only [hrows] at hv
    have hrv := Except.ok.inj hv
    subst hrv
    cases hrowsg : gnomadRowsFrom nsamples u 0 0 rg with
    | error e => rw [hrowsg] at hg; exact absurd hg (by simp)
    | ok prg =>
      obtain ⟨rowsg, cfin⟩ := prg
      simp only [hrowsg] at hg
      have hrg := Except.ok.inj hg
      subst hrg
      refine ⟨write_callset_ids samples dataset true,
        write_sample_ids samples dataset eth birth true, ?_, ?_⟩
      · intro g hgm
        have hmem := mem_artifact_getD hgm
        have hlt := vcfRowsFrom_gts_bound samples records 0 rows hrows g hmem
        exact ⟨hlt, write_callset_filter samples dataset true g.callsetId hlt,
          write_sample_filter samples dataset eth birth true g.callsetId hlt⟩
      · intro g hgm
        have hmem := mem_artifact_getD hgm
        have hlt := (gnomadRowsFrom_gts nsamples u rg 0 0 rowsg cfin hrowsg g hmem).2
        refine ⟨hlt, ?_⟩
        intro ss hss
        refine write_callset_filter ss dataset true g.callsetId ?_
        rw [hss]
        exact hlt

/-- C9, witness. -/
theorem c9_witness :
    (0 : Nat) < 500 ∧
    tables_vcf [c4_record] c4_samples dsName ethOracle birthOracle 500 = .ok w_vcf_run ∧
    tables_gnomad [g1_record] 1 uHalf 500 = .ok w_gnomad_run ∧
    (w_vcf_run.callsetsOut.map (fun cr => cr.callsetId) =
        List.range c4_samples.length ∧
     w_vcf_run.samplesOut.map (fun sr => sr.sampleId) = List.range c4_samples.length ∧
     (∀ g ∈ w_vcf_run.gtsOut.getD [], g.callsetId < c4_samples.length ∧
       (w_vcf_run.callsetsOut.filter
         (fun cr => decide (cr.callsetId = g.callsetId))).length = 1 ∧
       (w_vcf_run.samplesOut.filter
         (fun sr => decide (sr.sampleId = g.callsetId))).length = 1) ∧
     (∀ g ∈ w_gnomad_run.gtsOut.getD [], g.callsetId < 1 ∧
       ∀ (ss : List String), ss.length = 1 →
         ((write_callset_table ss dsName true).filter
           (fun cr => decide (cr.callsetId = g.callsetId))).length = 1)) :=
  ⟨by decide, w_vcf_run_eq, w_gnomad_run_eq,
    c9_callset_ids_valid [c4_record] c4_samples dsName ethOracle birthOracle 500
      w_vcf_run [g1_record] 1 uHalf 500 w_gnomad_run (by decide) (by decide)
      w_vcf_run_eq w_gnomad_run_eq⟩

/-! ## Claim C10 -/

/-- C10: in synthetic mode every genotype value written to the
genotype-call artifact is 1 (heterozygous) or 3 (homozygous-alternate);
the codes 0 and 2 never appear. -/
theorem c10_genotype_codes (rg : List GnomadRecord) (nsamples : Nat)
    (u : Nat → Nat → ℚ) (cg : Nat) (rung : GnomadRun) (hcg : 0 < cg)
    (hg : tables_gnomad rg nsamples u cg = .ok rung) :
    ∀ g ∈ rung.gtsOut.getD [], g.genotype = 1 ∨ g.genotype = 3 := by
  rw [tables_gnomad_eq_ref] at hg
  cases hrowsg : gnomadRowsFrom nsamples u 0 0 rg with
  | error e => rw [hrowsg] at hg; exact absurd hg (by simp)
  | ok prg =>
    obtain ⟨rowsg, cfin⟩ := prg
    simp only [hrowsg] at hg
    have hrg := Except.ok.inj hg
    subst hrg
    intro g hgm
    exact (gnomadRowsFrom_gts nsamples u rg 0 0 rowsg cfin hrowsg g
      (mem_artifact_getD hgm)).1

/-- C10, witness. -/
theorem c10_witness :
    (0 : Nat) < 500 ∧
    tables_gnomad [g1_record] 1 uHalf 500 = .ok w_gnomad_run ∧
    (∀ g ∈ w_gnomad_run.gtsOut.getD [], g.genotype = 1 ∨ g.genotype = 3) :=
  ⟨by decide, w_gnomad_run_eq,
    c10_genotype_codes [g1_record] 1 uHalf 500 w_gnomad_run (by decide) w_gnomad_run_eq⟩
